import Mathlib

/-!
# go_linux_proc_format: a shallow embedding of `proc.go`

File contents and Go strings are modelled as lists of Unicode code points
(`List Char`), i.e. the development covers contents that are valid UTF-8.
Byte lengths, where the Go code depends on them, are computed with
`Char.utf8Size`.  Go's `int` and `int64` are modelled as `Int` restricted to the
64-bit range (linux/amd64, linux/arm64); a Go `(value, error)` result is a pair
whose second component is an `Option Error`.
-/

namespace ProcFormat

/-! ## Errors -/

/-- The two failure kinds of `strconv` numeric conversions. -/
inductive NumErrKind
| syntaxErr
| rangeErr
deriving DecidableEq, Repr

/-- Error values that the functions of `proc.go` can return. -/
inductive Error
| numError (kind : NumErrKind)
| tooLong
| invalidStatFormat
| invalidUptimeFormat
deriving DecidableEq, Repr

/-! ## Go standard library: `unicode`, `strings` -/

/-- Go `unicode.IsSpace`: the code points with the White_Space property. -/
def isSpace (c : Char) : Bool :=
  let n := c.toNat
  (9 ≤ n && n ≤ 13) || n == 32 || n == 0x85 || n == 0xA0 || n == 0x1680 ||
  (0x2000 ≤ n && n ≤ 0x200A) || n == 0x2028 || n == 0x2029 || n == 0x202F ||
  n == 0x205F || n == 0x3000

/-- Go `strings.TrimSpace`: remove leading and trailing white space. -/
def TrimSpace (s : List Char) : List Char :=
  ((s.dropWhile isSpace).reverse.dropWhile isSpace).reverse

/-- Loop of Go `strings.Fields`: `cur` is the field being read, reversed. -/
def FieldsAux : List Char → List Char → List (List Char)
| cur, [] => if cur = [] then [] else [cur.reverse]
| cur, c :: cs =>
  if isSpace c then
    (if cur = [] then FieldsAux [] cs else cur.reverse :: FieldsAux [] cs)
  else FieldsAux (c :: cur) cs

/-- Go `strings.Fields`: the maximal runs of non-space characters. -/
def Fields (s : List Char) : List (List Char) := FieldsAux [] s

/-- Go `strings.SplitN(line, ":", 2)`: `none` stands for the one-element result
`[line]` (no colon), `some (a, b)` for the two-element result `[a, b]`. -/
def SplitN2 : List Char → Option (List Char × List Char)
| [] => none
| c :: cs =>
  if c = ':' then some ([], cs)
  else match SplitN2 cs with
    | none => none
    | some (a, b) => some (c :: a, b)

/-- Go `strings.Replace(value, "kB", "", -1)`: delete every occurrence of
`kB`, scanning from the left. -/
def ReplaceKB : List Char → List Char
| [] => []
| [c] => [c]
| c :: d :: rest =>
  if c = 'k' ∧ d = 'B' then ReplaceKB rest else c :: ReplaceKB (d :: rest)

/-- Length of a Go string in bytes (UTF-8). -/
def byteLen (s : List Char) : Nat := (s.map Char.utf8Size).sum

/-! ## Go standard library: `strconv` integer parsing (base 10) -/

/-- Go `IntSize` on 64-bit platforms. -/
def IntSize : Nat := 64

/-- Value of a decimal digit character, `none` for any other character. -/
def digitVal (c : Char) : Option Nat :=
  if '0'.toNat ≤ c.toNat ∧ c.toNat ≤ '9'.toNat then some (c.toNat - '0'.toNat) else none

/-- Digit loop of Go `strconv.ParseUint(s, 10, bitSize)` on the accumulator
`n`.  A range error is reported as soon as the accumulator overflows, before
the remaining characters are inspected. -/
def ParseUintLoop (maxVal : Nat) : Nat → List Char → Nat × Option NumErrKind
| n, [] => (n, none)
| n, c :: cs =>
  match digitVal c with
  | none => (0, some .syntaxErr)
  | some d =>
    if n ≥ (2 ^ 64 - 1) / 10 + 1 then (maxVal, some .rangeErr)
    else
      let n1 := n * 10 + d
      if n1 ≥ 2 ^ 64 ∨ n1 > maxVal then (maxVal, some .rangeErr)
      else ParseUintLoop maxVal n1 cs

/-- Go `strconv.ParseUint(s, 10, bitSize)` for `0 ≤ bitSize ≤ 64`. -/
def ParseUint (s : List Char) (bitSize : Nat) : Nat × Option NumErrKind :=
  if s = [] then (0, some .syntaxErr)
  else
    let bitSize := if bitSize = 0 then IntSize else bitSize
    ParseUintLoop (2 ^ bitSize - 1) 0 s

/-- Go `strconv.ParseInt(s, 10, bitSize)`.  On a range error the nearest
bound is returned together with the error. -/
def ParseInt (s : List Char) (bitSize : Nat) : Int × Option NumErrKind :=
  match s with
  | [] => (0, some .syntaxErr)
  | c :: cs =>
    let neg := c = '-'
    let body := if c = '+' ∨ c = '-' then cs else c :: cs
    match ParseUint body bitSize with
    | (_, some .syntaxErr) => (0, some .syntaxErr)
    | (un, _) =>
      let bitSize := if bitSize = 0 then IntSize else bitSize
      let cutoff : Nat := 2 ^ (bitSize - 1)
      if ¬ neg ∧ un ≥ cutoff then ((cutoff : Int) - 1, some .rangeErr)
      else if neg ∧ un > cutoff then (-(cutoff : Int), some .rangeErr)
      else (if neg then -(un : Int) else (un : Int), none)

/-- Digit loop of the fast path of Go `strconv.Atoi`. -/
def AtoiFastLoop : Nat → List Char → Option Nat
| n, [] => some n
| n, c :: cs =>
  match digitVal c with
  | none => none
  | some d => AtoiFastLoop (n * 10 + d) cs

/-- Go `strconv.Atoi`: a fast path for strings of 1 to 18 bytes, and
`ParseInt(s, 10, 0)` otherwise. -/
def Atoi (s : List Char) : Int × Option Error :=
  if 0 < byteLen s ∧ byteLen s < 19 then
    match s with
    | [] => (0, some (.numError .syntaxErr))
    | c :: cs =>
      let body := if c = '-' ∨ c = '+' then cs else c :: cs
      if body = [] then (0, some (.numError .syntaxErr))
      else match AtoiFastLoop 0 body with
        | none => (0, some (.numError .syntaxErr))
        | some n => (if c = '-' then -(n : Int) else (n : Int), none)
  else
    let r := ParseInt s 0
    (r.1, r.2.map Error.numError)

/-! ## `proc.go` -/

/-- The record `ProcStatus` of `proc.go`. -/
structure ProcStatus where
  Name : List Char := []
  Umask : List Char := []
  State : List Char := []
  Tgid : Int := 0
  Ngid : Int := 0
  Pid : Int := 0
  PPid : Int := 0
  TracerPid : Int := 0
  Uid : List Int := []
  Gid : List Int := []
  FDSize : Int := 0
  Groups : List Int := []
  VmPeak : Int := 0
  VmSize : Int := 0
  VmLck : Int := 0
  VmPin : Int := 0
  VmHWM : Int := 0
  VmRSS : Int := 0
  RssAnon : Int := 0
  RssFile : Int := 0
  RssShmem : Int := 0
  VmData : Int := 0
  VmStk : Int := 0
  VmExe : Int := 0
  VmLib : Int := 0
  VmPTE : Int := 0
  VmSwap : Int := 0
  Threads : Int := 0
deriving DecidableEq

/-- Loop of `parseToIntArray` over the fields, `result` being the slice built
so far. -/
def parseToIntArrayLoop : List Int → List (List Char) → List Int
| result, [] => result
| result, s :: rest =>
  match Atoi s with
  | (_, some _) => parseToIntArrayLoop result rest
  | (i, none) => parseToIntArrayLoop (result ++ [i]) rest

/-- The function `parseToIntArray` of `proc.go`. -/
def parseToIntArray (str : List Char) : List Int :=
  parseToIntArrayLoop [] (Fields str)

/-- Leftmost match of the regular expression `\((.*?)\)` in a string without
newline, scanning after an opening parenthesis: the text up to the first
closing parenthesis, `none` when there is none. -/
def untilClose : List Char → Option (List Char)
| [] => none
| c :: cs =>
  if c = ')' then some []
  else match untilClose cs with
    | none => none
    | some m => some (c :: m)

/-- Go `regexp.MustCompile("\\((.*?)\\)").FindStringSubmatch(value)`, of which
only the capture group `match[1]` is kept; `none` is the nil result. -/
def FindStringSubmatch : List Char → Option (List Char)
| [] => none
| c :: cs =>
  if c = '(' then
    match untilClose cs with
    | some m => some m
    | none => FindStringSubmatch cs
  else FindStringSubmatch cs

/-- Body of the scanning loop of `ParseProcStatus`: the effect of one line on
the record under construction. -/
def processLine (status : ProcStatus) (line : List Char) : ProcStatus :=
  match SplitN2 line with
  | none => status
  | some (p0, p1) =>
    let key := TrimSpace p0
    let value := TrimSpace p1
    let value := ReplaceKB value
    let value := TrimSpace value
    if key = ['N', 'a', 'm', 'e'] then { status with Name := value }
    else if key = ['U', 'm', 'a', 's', 'k'] then { status with Umask := value }
    else if key = ['S', 't', 'a', 't', 'e'] then
      match FindStringSubmatch value with
      | some m => { status with State := m }
      | none => status
    else if key = ['T', 'g', 'i', 'd'] then { status with Tgid := (Atoi value).1 }
    else if key = ['N', 'g', 'i', 'd'] then { status with Ngid := (Atoi value).1 }
    else if key = ['P', 'i', 'd'] then { status with Pid := (Atoi value).1 }
    else if key = ['P', 'P', 'i', 'd'] then { status with PPid := (Atoi value).1 }
    else if key = ['T', 'r', 'a', 'c', 'e', 'r', 'P', 'i', 'd'] then
      { status with TracerPid := (Atoi value).1 }
    else if key = ['U', 'i', 'd'] then { status with Uid := parseToIntArray value }
    else if key = ['G', 'i', 'd'] then { status with Gid := parseToIntArray value }
    else if key = ['F', 'D', 'S', 'i', 'z', 'e'] then { status with FDSize := (Atoi value).1 }
    else if key = ['G', 'r', 'o', 'u', 'p', 's'] then
      { status with Groups := parseToIntArray value }
    else if key = ['V', 'm', 'P', 'e', 'a', 'k'] then { status with VmPeak := (Atoi value).1 }
    else if key = ['V', 'm', 'S', 'i', 'z', 'e'] then { status with VmSize := (Atoi value).1 }
    else if key = ['V', 'm', 'L', 'c', 'k'] then { status with VmLck := (Atoi value).1 }
    else if key = ['V', 'm', 'P', 'i', 'n'] then { status with VmPin := (Atoi value).1 }
    else if key = ['V', 'm', 'H', 'W', 'M'] then { status with VmHWM := (Atoi value).1 }
    else if key = ['V', 'm', 'R', 'S', 'S'] then { status with VmRSS := (Atoi value).1 }
    else if key = ['R', 's', 's', 'A', 'n', 'o', 'n'] then
      { status with RssAnon := (Atoi value).1 }
    else if key = ['R', 's', 's', 'F', 'i', 'l', 'e'] then
      { status with RssFile := (Atoi value).1 }
    else if key = ['R', 's', 's', 'S', 'h', 'm', 'e', 'm'] then
      { status with RssShmem := (Atoi value).1 }
    else if key = ['V', 'm', 'D', 'a', 't', 'a'] then { status with VmData := (Atoi value).1 }
    else if key = ['V', 'm', 'S', 't', 'k'] then { status with VmStk := (Atoi value).1 }
    else if key = ['V', 'm', 'E', 'x', 'e'] then { status with VmExe := (Atoi value).1 }
    else if key = ['V', 'm', 'L', 'i', 'b'] then { status with VmLib := (Atoi value).1 }
    else if key = ['V', 'm', 'P', 'T', 'E'] then { status with VmPTE := (Atoi value).1 }
    else if key = ['V', 'm', 'S', 'w', 'a', 'p'] then { status with VmSwap := (Atoi value).1 }
    else if key = ['T', 'h', 'r', 'e', 'a', 'd', 's'] then
      { status with Threads := (Atoi value).1 }
    else status

/-- Go `bufio.MaxScanTokenSize`, the size to which a `bufio.Scanner` lets its
buffer grow. -/
def MaxScanTokenSize : Nat := 64 * 1024

/-- Tokens of the split function `bufio.ScanLines` before the carriage return
is dropped: the content cut at every newline; a final piece without newline
is a token unless it is empty.  `cur` is the piece being read, reversed. -/
def rawLinesAux : List Char → List Char → List (List Char)
| cur, [] => if cur = [] then [] else [cur.reverse]
| cur, c :: cs =>
  if c = '\n' then cur.reverse :: rawLinesAux [] cs else rawLinesAux (c :: cur) cs

/-- Tokens of `bufio.ScanLines` on a whole content, carriage returns kept. -/
def rawLines (content : List Char) : List (List Char) := rawLinesAux [] content

/-- Go `dropCR` of package `bufio`: drop one terminal carriage return. -/
def dropCR (line : List Char) : List Char :=
  match line.reverse with
  | c :: rest => if c = '\r' then rest.reverse else line
  | [] => line

/-- The scanning loop of `ParseProcStatus` with its `bufio.Scanner`: the lines
are processed in order until a line does not fit the scanner's buffer, that
is, has `MaxScanTokenSize` bytes or more before its newline; the scanner then
stops with `ErrTooLong`. -/
def scanLoop : ProcStatus → List (List Char) → ProcStatus × Option Error
| status, [] => (status, none)
| status, raw :: rest =>
  if byteLen raw ≥ MaxScanTokenSize then (status, some .tooLong)
  else scanLoop (processLine status (dropCR raw)) rest

/-- The function `ParseProcStatus` of `proc.go` on the content of a status
file that was opened and read without I/O error.  The result is `(nil, err)`
when the scanner reports an error and `(status, nil)` otherwise. -/
def ParseProcStatus (content : List Char) : Option ProcStatus × Option Error :=
  match scanLoop {} (rawLines content) with
  | (_, some err) => (none, some err)
  | (status, none) => (some status, none)

/-- Loop of `getChildPIDs` over the fields: `childPIDs` holds the entries
assigned so far; the first field that `strconv.Atoi` rejects ends the call
with `(nil, err)`. -/
def getChildPIDsLoop : List Int → List (List Char) → Option (List Int) × Option Error
| childPIDs, [] => (some childPIDs, none)
| childPIDs, pidString :: rest =>
  match Atoi pidString with
  | (_, some err) => (none, some err)
  | (childPID, none) => getChildPIDsLoop (childPIDs ++ [childPID]) rest

/-- The function `getChildPIDs` of `proc.go` on the content of a children file
that was read without I/O error; `none` is the nil slice. -/
def getChildPIDs (content : List Char) : Option (List Int) × Option Error :=
  getChildPIDsLoop [] (Fields content)

/-! ## Go `float64`: IEEE 754 binary64, round to nearest, ties to even -/

/-- A `float64` value.  `fin neg m e` is `(-1)^neg * m * 2^e` with `m < 2^53`;
`2^52 ≤ m` and `-1074 ≤ e ≤ 971` for a normal number, `e = -1074` for a
subnormal number or a zero. -/
inductive F64
| nan
| inf (neg : Bool)
| fin (neg : Bool) (m : Nat) (e : Int)
deriving DecidableEq, Repr

/-- Floor of the binary logarithm of `n` (0 for `n = 0`), by at most `fuel`
halvings. -/
def log2Aux : Nat → Nat → Nat
| 0, _ => 0
| fuel + 1, n => if n < 2 then 0 else log2Aux fuel (n / 2) + 1

/-- Floor of the binary logarithm of `n`, and 0 for `n = 0`. -/
def log2 (n : Nat) : Nat := log2Aux n n

/-- The `float64` nearest to `(-1)^neg * (p / q) * 2^x`, for `q > 0`; ties go
to the even significand, and a result beyond the largest finite number is an
infinity. -/
def F64.round (neg : Bool) (p q : Nat) (x : Int) : F64 :=
  if p = 0 then .fin neg 0 (-1074)
  else
    -- `fl` is the floor of the binary logarithm of `(p / q) * 2^x`
    let k : Int := (log2 p : Int) - (log2 q : Int)
    let fl : Int := (if p * 2 ^ (-k).toNat ≥ q * 2 ^ k.toNat then k else k - 1) + x
    let e : Int := max (fl - 52) (-1074)
    -- the quotient `num / den` is `(p / q) * 2^x / 2^e`
    let num : Nat := p * 2 ^ (x - e).toNat
    let den : Nat := q * 2 ^ (e - x).toNat
    let m0 := num / den
    let r := num % den
    let m := if 2 * r > den ∨ (2 * r = den ∧ m0 % 2 = 1) then m0 + 1 else m0
    let m' := if m = 2 ^ 53 then 2 ^ 52 else m
    let e' := if m = 2 ^ 53 then e + 1 else e
    if e' > 971 then .inf neg else .fin neg m' e'

/-- Conversion of a Go integer to `float64`. -/
def F64.ofInt (i : Int) : F64 := F64.round (decide (i < 0)) i.natAbs 1 0

/-- Go `-x` on `float64`. -/
def F64.neg : F64 → F64
| .nan => .nan
| .inf s => .inf (!s)
| .fin s m e => .fin (!s) m e

/-- Go `x + y` on `float64`. -/
def F64.add : F64 → F64 → F64
| .nan, _ => .nan
| _, .nan => .nan
| .inf s, .inf t => if s = t then .inf s else .nan
| .inf s, .fin _ _ _ => .inf s
| .fin _ _ _, .inf t => .inf t
| .fin s m e, .fin t n f =>
  let x := min e f
  let a : Int := (if s then -1 else 1) * (m * 2 ^ (e - x).toNat : Nat)
  let b : Int := (if t then -1 else 1) * (n * 2 ^ (f - x).toNat : Nat)
  if a + b = 0 then .fin (s && t) 0 (-1074)
  else F64.round (decide (a + b < 0)) (a + b).natAbs 1 x

/-- Go `x - y` on `float64`. -/
def F64.sub (a b : F64) : F64 := F64.add a (F64.neg b)

/-- Go `x * y` on `float64`. -/
def F64.mul : F64 → F64 → F64
| .nan, _ => .nan
| _, .nan => .nan
| .inf s, .inf t => .inf (xor s t)
| .inf s, .fin t n _ => if n = 0 then .nan else .inf (xor s t)
| .fin s m _, .inf t => if m = 0 then .nan else .inf (xor s t)
| .fin s m e, .fin t n f => F64.round (xor s t) (m * n) 1 (e + f)

/-- Go `x / y` on `float64`. -/
def F64.div : F64 → F64 → F64
| .nan, _ => .nan
| _, .nan => .nan
| .inf _, .inf _ => .nan
| .inf s, .fin t _ _ => .inf (xor s t)
| .fin s _ _, .inf t => .fin (xor s t) 0 (-1074)
| .fin s m e, .fin t n f =>
  if n = 0 then (if m = 0 then .nan else .inf (xor s t))
  else F64.round (xor s t) m n (e - f)

/-- What a conversion of a `float64` to a Go integer gives when the value does
not fit (NaN, infinities, magnitudes of `2^63` and more).  The Go specification
leaves this value to the implementation; this is the one on amd64. -/
def intIndefinite : Int := -(2 ^ 63)

/-- Go `int(x)` for a `float64`: the fraction is discarded. -/
def F64.toInt : F64 → Int
| .nan => intIndefinite
| .inf _ => intIndefinite
| .fin s m e =>
  let t : Nat := if e ≥ 0 then m * 2 ^ e.toNat else m / 2 ^ (-e).toNat
  let v : Int := if s then -(t : Int) else (t : Int)
  if -(2 ^ 63 : Int) ≤ v ∧ v < 2 ^ 63 then v else intIndefinite

/-- Go `int64` addition: the sum wraps around modulo `2^64`. -/
def wrap64 (x : Int) : Int := (x + 2 ^ 63) % 2 ^ 64 - 2 ^ 63

/-- The function `getProcStat` of `proc.go` on the content of a stat file that
was read without I/O error. -/
def getProcStat (content : List Char) : List (List Char) × Option Error :=
  (Fields content, none)

/-- The function `getUptime` of `proc.go` on the content of the uptime file
read without I/O error; the result is `(uptime, err)`.  `ParseFloat` stands
for the library function `strconv.ParseFloat(·, 64)`, which the function calls
on its first field and whose result it returns as it is. -/
def getUptime (ParseFloat : List Char → F64 × Option Error) (data : List Char) :
    F64 × Option Error :=
  let fields := Fields data
  if fields.length < 1 then (F64.ofInt 0, some .invalidUptimeFormat)
  else ParseFloat (fields.getD 0 [])

/-- The function `GetMilliCPUUsage` of `proc.go` from the point where
`getProcStat` has returned `fields` without error.  `uptimeResult` is the
result `(uptime, err)` of `getUptime` and `sysconfClkTck` the value of
`C.sysconf(C._SC_CLK_TCK)`. -/
def GetMilliCPUUsageOfFields (fields : List (List Char)) (uptimeResult : F64 × Option Error)
    (sysconfClkTck : Int) : Int × F64 × Option Error :=
  if fields.length < 22 then (0, F64.ofInt 0, some .invalidStatFormat)
  else
    let utime := (ParseInt (fields.getD 13 []) 64).1
    let stime := (ParseInt (fields.getD 14 []) 64).1
    let starttime := (ParseInt (fields.getD 21 []) 64).1
    match uptimeResult with
    | (_, some err) => (0, F64.ofInt 0, some err)
    | (uptime, none) =>
      let clkTck := F64.ofInt sysconfClkTck
      let currentTime := F64.mul uptime clkTck
      let totalCPUTime := F64.ofInt (wrap64 (utime + stime))
      let processTime := F64.sub currentTime (F64.ofInt starttime)
      let cpuUsage := F64.toInt (F64.mul (F64.div totalCPUTime processTime) (F64.ofInt 1000))
      let puptime := F64.div (F64.ofInt (wrap64 (utime + stime))) clkTck
      (cpuUsage, puptime, none)

/-- The function `GetMilliCPUUsage` of `proc.go` on the content of a stat file
that was read without I/O error; the result is `(usage, runtime, err)`. -/
def GetMilliCPUUsage (stat : List Char) (uptimeResult : F64 × Option Error)
    (sysconfClkTck : Int) : Int × F64 × Option Error :=
  match getProcStat stat with
  | (_, some err) => (0, F64.ofInt 0, some err)
  | (fields, none) => GetMilliCPUUsageOfFields fields uptimeResult sysconfClkTck

/-! ## Specification-side definitions -/

/-- Decimal digit test. -/
def isDigit (c : Char) : Bool := (digitVal c).isSome

/-- Value of a digit string read in base 10 onto the accumulator `n`. -/
def decAcc (n : Nat) (ds : List Char) : Nat :=
  ds.foldl (fun a c => a * 10 + (digitVal c).getD 0) n

/-- Specification of the digits of a base-10 integer after its optional
sign, for a 64-bit signed result: `neg` tells whether the sign was a minus. -/
def decimalBody (neg : Bool) (body : List Char) : Int × Option NumErrKind :=
  let run := body.takeWhile isDigit
  let v := decAcc 0 run
  let bound : Int := if neg then -(2 ^ 63 : Int) else 2 ^ 63 - 1
  if v ≥ 2 ^ 64 then (bound, some .rangeErr)
  else if run = [] ∨ run ≠ body then (0, some .syntaxErr)
  else if (neg = false ∧ v ≥ 2 ^ 63) ∨ (neg = true ∧ v > 2 ^ 63) then (bound, some .rangeErr)
  else (if neg then -(v : Int) else (v : Int), none)

/-- Whether a string starts with a minus sign. -/
def hasMinus (s : List Char) : Bool := s.head? = some '-'

/-- A string without its leading sign character, if it has one. -/
def unsignedPart (s : List Char) : List Char :=
  if s.head? = some '-' ∨ s.head? = some '+' then s.tail else s

/-- Specification of base-10 integer parsing into a 64-bit signed integer. -/
def atoiSpec (s : List Char) : Int × Option NumErrKind :=
  decimalBody (hasMinus s) (unsignedPart s)

/-- The scalar integer keys of a status file: the cases of `ParseProcStatus`
that assign the result of `strconv.Atoi`. -/
inductive ScalarKey
| Tgid | Ngid | Pid | PPid | TracerPid | FDSize
| VmPeak | VmSize | VmLck | VmPin | VmHWM | VmRSS
| RssAnon | RssFile | RssShmem
| VmData | VmStk | VmExe | VmLib | VmPTE | VmSwap
| Threads
deriving DecidableEq, Repr

/-- The key text of a scalar integer field. -/
def ScalarKey.name : ScalarKey → List Char
| .Tgid => ['T', 'g', 'i', 'd']
| .Ngid => ['N', 'g', 'i', 'd']
| .Pid => ['P', 'i', 'd']
| .PPid => ['P', 'P', 'i', 'd']
| .TracerPid => ['T', 'r', 'a', 'c', 'e', 'r', 'P', 'i', 'd']
| .FDSize => ['F', 'D', 'S', 'i', 'z', 'e']
| .VmPeak => ['V', 'm', 'P', 'e', 'a', 'k']
| .VmSize => ['V', 'm', 'S', 'i', 'z', 'e']
| .VmLck => ['V', 'm', 'L', 'c', 'k']
| .VmPin => ['V', 'm', 'P', 'i', 'n']
| .VmHWM => ['V', 'm', 'H', 'W', 'M']
| .VmRSS => ['V', 'm', 'R', 'S', 'S']
| .RssAnon => ['R', 's', 's', 'A', 'n', 'o', 'n']
| .RssFile => ['R', 's', 's', 'F', 'i', 'l', 'e']
| .RssShmem => ['R', 's', 's', 'S', 'h', 'm', 'e', 'm']
| .VmData => ['V', 'm', 'D', 'a', 't', 'a']
| .VmStk => ['V', 'm', 'S', 't', 'k']
| .VmExe => ['V', 'm', 'E', 'x', 'e']
| .VmLib => ['V', 'm', 'L', 'i', 'b']
| .VmPTE => ['V', 'm', 'P', 'T', 'E']
| .VmSwap => ['V', 'm', 'S', 'w', 'a', 'p']
| .Threads => ['T', 'h', 'r', 'e', 'a', 'd', 's']

/-- The field of the record that belongs to a scalar integer key. -/
def ScalarKey.get : ScalarKey → ProcStatus → Int
| .Tgid, s => s.Tgid
| .Ngid, s => s.Ngid
| .Pid, s => s.Pid
| .PPid, s => s.PPid
| .TracerPid, s => s.TracerPid
| .FDSize, s => s.FDSize
| .VmPeak, s => s.VmPeak
| .VmSize, s => s.VmSize
| .VmLck, s => s.VmLck
| .VmPin, s => s.VmPin
| .VmHWM, s => s.VmHWM
| .VmRSS, s => s.VmRSS
| .RssAnon, s => s.RssAnon
| .RssFile, s => s.RssFile
| .RssShmem, s => s.RssShmem
| .VmData, s => s.VmData
| .VmStk, s => s.VmStk
| .VmExe, s => s.VmExe
| .VmLib, s => s.VmLib
| .VmPTE, s => s.VmPTE
| .VmSwap, s => s.VmSwap
| .Threads, s => s.Threads

/-- The key of a status line: the trimmed text before its first colon;
`none` for a line without colon. -/
def lineKey (line : List Char) : Option (List Char) :=
  (SplitN2 line).map fun p => TrimSpace p.1

/-- The text of a status line after its first colon, untouched. -/
def lineText (line : List Char) : List Char :=
  match SplitN2 line with
  | some (_, v) => v
  | none => []

/-- The value of a status line as the cases of `ParseProcStatus` receive
it: the text after the first colon, trimmed, freed of `kB`, trimmed again. -/
def lineValue (line : List Char) : List Char :=
  TrimSpace (ReplaceKB (TrimSpace (lineText line)))

/-- The lines of a status content as the scanner delivers them. -/
def statusLines (content : List Char) : List (List Char) :=
  (rawLines content).map dropCR

/-- The last line of `lines` whose key is `key`. -/
def lastWithKey (key : List Char) (lines : List (List Char)) : Option (List Char) :=
  (lines.filter fun l => lineKey l = some key).getLast?

/-- The leading run of decimal digits of a string, after its optional sign. -/
def leadingDigits (s : List Char) : List Char :=
  (unsignedPart s).takeWhile isDigit

/-- The 64-bit bound nearest to a number with the sign of `s`. -/
def nearestBound (s : List Char) : Int :=
  if hasMinus s then -(2 ^ 63 : Int) else 2 ^ 63 - 1

/-- The character of a decimal digit. -/
def digitChar (d : Nat) : Char := Char.ofNat (48 + d)

/-- Decimal rendering of a natural number, most significant digit first. -/
def formatNat (n : Nat) : List Char :=
  if n = 0 then ['0'] else (Nat.digits 10 n).reverse.map digitChar

/-- Decimal rendering of an integer, as Go `strconv.Itoa` writes it. -/
def Itoa (n : Int) : List Char :=
  if n < 0 then '-' :: formatNat n.natAbs else formatNat n.natAbs

/-- The substring strictly between the first `(` of a text and the first `)`
that follows it; `none` when the text has no such pair of parentheses. -/
def betweenParens (v : List Char) : Option (List Char) :=
  if '(' ∈ v then
    let rest := (v.dropWhile (fun c => c != '(')).tail
    if ')' ∈ rest then some (rest.takeWhile (fun c => c != ')')) else none
  else none

/-- The white-space-delimited tokens of a text: the text is cut at every
white-space character and the empty pieces are dropped. -/
def tokens (s : List Char) : List (List Char) :=
  (s.splitOnP isSpace).filter fun t => t ≠ []

/-- The value of a token that is a base-10 integer in the 64-bit range;
`none` for any other token. -/
def decimalValue (t : List Char) : Option Int :=
  if (atoiSpec t).2 = none then some (atoiSpec t).1 else none

/-- The usage that `GetMilliCPUUsage` computes from the three tick counts, in
`float64` arithmetic: `int(float64(utime+stime) / (uptime*clkTck -
float64(starttime)) * 1000)`, the sum being taken in `int64`. -/
def usageOfTicks (utime stime starttime : Int) (uptime : F64) (clkTck : Int) : Int :=
  F64.toInt
    (F64.mul
      (F64.div (F64.ofInt (wrap64 (utime + stime)))
        (F64.sub (F64.mul uptime (F64.ofInt clkTck)) (F64.ofInt starttime)))
      (F64.ofInt 1000))

/-- The runtime that `GetMilliCPUUsage` computes from the tick counts, in
`float64` arithmetic: `float64(utime+stime) / clkTck`. -/
def runtimeOfTicks (utime stime : Int) (clkTck : Int) : F64 :=
  F64.div (F64.ofInt (wrap64 (utime + stime))) (F64.ofInt clkTck)

/-- The texts of a list joined by single spaces. -/
def joinSpaces : List (List Char) → List Char
| [] => []
| [t] => t
| t :: u :: rest => t ++ ' ' :: joinSpaces (u :: rest)

/-- The content of a children file that lists the process ids `pids`: their
decimal renderings separated by spaces, ended by a newline. -/
def childrenContent (pids : List Int) : List Char :=
  joinSpaces (pids.map Itoa) ++ ['\n']

/-- The keys that `ParseProcStatus` recognizes: the cases of its switch. -/
def recognizedKeys : List (List Char) :=
  [['N', 'a', 'm', 'e'], ['U', 'm', 'a', 's', 'k'], ['S', 't', 'a', 't', 'e'],
   ['T', 'g', 'i', 'd'], ['N', 'g', 'i', 'd'], ['P', 'i', 'd'], ['P', 'P', 'i', 'd'],
   ['T', 'r', 'a', 'c', 'e', 'r', 'P', 'i', 'd'], ['U', 'i', 'd'], ['G', 'i', 'd'],
   ['F', 'D', 'S', 'i', 'z', 'e'], ['G', 'r', 'o', 'u', 'p', 's'],
   ['V', 'm', 'P', 'e', 'a', 'k'], ['V', 'm', 'S', 'i', 'z', 'e'], ['V', 'm', 'L', 'c', 'k'],
   ['V', 'm', 'P', 'i', 'n'], ['V', 'm', 'H', 'W', 'M'], ['V', 'm', 'R', 'S', 'S'],
   ['R', 's', 's', 'A', 'n', 'o', 'n'], ['R', 's', 's', 'F', 'i', 'l', 'e'],
   ['R', 's', 's', 'S', 'h', 'm', 'e', 'm'], ['V', 'm', 'D', 'a', 't', 'a'],
   ['V', 'm', 'S', 't', 'k'], ['V', 'm', 'E', 'x', 'e'], ['V', 'm', 'L', 'i', 'b'],
   ['V', 'm', 'P', 'T', 'E'], ['V', 'm', 'S', 'w', 'a', 'p'],
   ['T', 'h', 'r', 'e', 'a', 'd', 's']]

/-- The fields of the record `ProcStatus`: the 22 scalar integer fields and
the six others. -/
inductive StatusField
| Name | Umask | State | Uid | Gid | Groups
| scalar (K : ScalarKey)
deriving DecidableEq

/-- The key of a field in a status file. -/
def StatusField.key : StatusField → List Char
| .Name => ['N', 'a', 'm', 'e']
| .Umask => ['U', 'm', 'a', 's', 'k']
| .State => ['S', 't', 'a', 't', 'e']
| .Uid => ['U', 'i', 'd']
| .Gid => ['G', 'i', 'd']
| .Groups => ['G', 'r', 'o', 'u', 'p', 's']
| .scalar K => K.name

/-- Whether a field of a record has its zero value: the empty string, the
empty sequence or 0. -/
def StatusField.isZero : StatusField → ProcStatus → Bool
| .Name, s => s.Name = []
| .Umask, s => s.Umask = []
| .State, s => s.State = []
| .Uid, s => s.Uid = []
| .Gid, s => s.Gid = []
| .Groups, s => s.Groups = []
| .scalar K, s => K.get s = 0

/-- The last line with the key `State` whose value has a parenthesized
part. -/
def lastStateLine (lines : List (List Char)) : Option (List Char) :=
  (lines.filter fun l =>
    lineKey l = some ['S', 't', 'a', 't', 'e'] ∧ (betweenParens (lineValue l)).isSome).getLast?

/-! ## Decimal parsing -/

theorem decAcc_cons (n : Nat) (c : Char) (cs : List Char) :
    decAcc n (c :: cs) = decAcc (n * 10 + (digitVal c).getD 0) cs := rfl

theorem le_decAcc (ds : List Char) : ∀ n, n ≤ decAcc n ds := by
  induction ds with
  | nil => intro n; exact Nat.le_refl _
  | cons c cs ih =>
    intro n
    rw [decAcc_cons]
    exact Nat.le_trans (by omega) (ih _)

theorem digitVal_le {c : Char} {d : Nat} (h : digitVal c = some d) : d ≤ 9 := by
  unfold digitVal at h
  split at h
  · simp at h
    have : ('0' : Char).toNat = 48 := by decide
    have : ('9' : Char).toNat = 57 := by decide
    omega
  · simp at h

theorem decAcc_lt (ds : List Char) : ∀ n, decAcc n ds < (n + 1) * 10 ^ ds.length := by
  induction ds with
  | nil => intro n; simp [decAcc]
  | cons c cs ih =>
    intro n
    rw [decAcc_cons]
    have h := ih (n * 10 + (digitVal c).getD 0)
    have hd : (digitVal c).getD 0 ≤ 9 := by
      cases hc : digitVal c with
      | none => simp
      | some d => simpa using digitVal_le hc
    have : (n * 10 + (digitVal c).getD 0 + 1) * 10 ^ cs.length ≤ (n + 1) * 10 ^ (c :: cs).length := by
      rw [List.length_cons, pow_succ]
      have : n * 10 + (digitVal c).getD 0 + 1 ≤ (n + 1) * 10 := by omega
      calc (n * 10 + (digitVal c).getD 0 + 1) * 10 ^ cs.length
          ≤ ((n + 1) * 10) * 10 ^ cs.length := Nat.mul_le_mul_right _ this
        _ = (n + 1) * (10 ^ cs.length * 10) := by ring
    omega

theorem ParseUintLoop_eq (s : List Char) : ∀ n, n ≤ 2 ^ 64 - 1 →
    ParseUintLoop (2 ^ 64 - 1) n s =
      if decAcc n (s.takeWhile isDigit) ≥ 2 ^ 64 then (2 ^ 64 - 1, some .rangeErr)
      else if s.takeWhile isDigit ≠ s then (0, some .syntaxErr)
      else (decAcc n (s.takeWhile isDigit), none) := by
  induction s with
  | nil => intro n hn; simp [ParseUintLoop, decAcc]; rw [if_neg (by omega)]
  | cons c cs ih =>
    intro n hn
    unfold ParseUintLoop
    cases hc : digitVal c with
    | none =>
      have : isDigit c = false := by simp [isDigit, hc]
      simp [List.takeWhile, this, decAcc]
      rw [if_neg (by omega)]
    | some d =>
      have hdig : isDigit c = true := by simp [isDigit, hc]
      have hd := digitVal_le hc
      simp only [List.takeWhile, hdig, decAcc_cons, hc, Option.getD_some]
      have hmono := le_decAcc (cs.takeWhile isDigit) (n * 10 + d)
      by_cases h1 : n ≥ (2 ^ 64 - 1) / 10 + 1
      · rw [if_pos h1, if_pos (by omega)]
      · rw [if_neg h1]
        by_cases h2 : n * 10 + d ≥ 2 ^ 64 ∨ n * 10 + d > 2 ^ 64 - 1
        · rw [if_pos h2, if_pos (by omega)]
        · rw [if_neg h2, ih _ (by omega)]
          simp

theorem AtoiFastLoop_eq (s : List Char) : ∀ n,
    AtoiFastLoop n s = if s.takeWhile isDigit = s then some (decAcc n s) else none := by
  induction s with
  | nil => intro n; simp [AtoiFastLoop, decAcc]
  | cons c cs ih =>
    intro n
    unfold AtoiFastLoop
    cases hc : digitVal c with
    | none => simp [List.takeWhile, isDigit, hc]
    | some d => simp [List.takeWhile, isDigit, hc, decAcc_cons, ih]

theorem length_le_byteLen (s : List Char) : s.length ≤ byteLen s := by
  induction s with
  | nil => simp [byteLen]
  | cons c cs ih =>
    have := Char.utf8Size_pos c
    simp only [byteLen, List.map_cons, List.sum_cons, List.length_cons] at ih ⊢
    omega

theorem byteLen_nil : byteLen [] = 0 := rfl

theorem takeWhile_length_le (p : Char → Bool) (s : List Char) :
    (s.takeWhile p).length ≤ s.length := by
  induction s with
  | nil => simp
  | cons c cs ih =>
    simp only [List.takeWhile]
    split
    · simp; omega
    · simp

theorem fastBody_eq (neg : Bool) (body : List Char) (h : body.length ≤ 18) :
    (if body = [] then ((0 : Int), some (Error.numError .syntaxErr))
      else match AtoiFastLoop 0 body with
        | none => (0, some (.numError .syntaxErr))
        | some n => (if neg then -(n : Int) else (n : Int), none)) =
    ((decimalBody neg body).1, (decimalBody neg body).2.map Error.numError) := by
  have h1 := decAcc_lt (body.takeWhile isDigit) 0
  have h2 := takeWhile_length_le isDigit body
  have h3 : 10 ^ (body.takeWhile isDigit).length ≤ 10 ^ 18 :=
    Nat.pow_le_pow_right (by norm_num) (by omega)
  have h4 : ¬ decAcc 0 (body.takeWhile isDigit) ≥ 2 ^ 64 := by omega
  have h5 : ¬ ((neg = false ∧ decAcc 0 (body.takeWhile isDigit) ≥ 2 ^ 63) ∨
      (neg = true ∧ decAcc 0 (body.takeWhile isDigit) > 2 ^ 63)) := by omega
  unfold decimalBody
  simp only [if_neg h4, if_neg h5]
  by_cases hb : body = []
  · subst hb; simp
  · rw [if_neg hb, AtoiFastLoop_eq]
    by_cases ht : body.takeWhile isDigit = body
    · have : ¬ (body.takeWhile isDigit = [] ∨ body.takeWhile isDigit ≠ body) := by
        rw [ht]; simp [hb]
      rw [if_pos ht, if_neg this, ht]
      simp
    · rw [if_neg ht, if_pos (Or.inr ht)]
      simp

theorem ParseUint_eq (body : List Char) (b : Nat) (hb : b = 0 ∨ b = 64) :
    ParseUint body b =
      if decAcc 0 (body.takeWhile isDigit) ≥ 2 ^ 64 then (2 ^ 64 - 1, some .rangeErr)
      else if body.takeWhile isDigit = [] ∨ body.takeWhile isDigit ≠ body then
        (0, some .syntaxErr)
      else (decAcc 0 (body.takeWhile isDigit), none) := by
  have hbit : (if b = 0 then IntSize else b) = 64 := by
    rcases hb with rfl | rfl <;> simp [IntSize]
  unfold ParseUint
  simp only [hbit]
  by_cases h : body = []
  · subst h; simp [decAcc]
  · rw [if_neg h, ParseUintLoop_eq _ _ (by omega)]
    by_cases h1 : decAcc 0 (body.takeWhile isDigit) ≥ 2 ^ 64
    · simp only [if_pos h1]
    · simp only [if_neg h1]
      by_cases h2 : body.takeWhile isDigit = body
      · have : ¬ (body.takeWhile isDigit = [] ∨ body.takeWhile isDigit ≠ body) := by
          rw [h2]; simp [h]
        rw [if_neg this, if_neg (by simp [h2])]
      · rw [if_pos h2, if_pos (Or.inr h2)]

theorem slowBody_eq (neg : Bool) (body : List Char) (b : Nat) (hb : b = 0 ∨ b = 64) :
    (match ParseUint body b with
      | (_, some .syntaxErr) => ((0 : Int), some NumErrKind.syntaxErr)
      | (un, _) =>
        let bitSize := if b = 0 then IntSize else b
        let cutoff : Nat := 2 ^ (bitSize - 1)
        if ¬ (neg = true) ∧ un ≥ cutoff then ((cutoff : Int) - 1, some .rangeErr)
        else if neg = true ∧ un > cutoff then (-(cutoff : Int), some .rangeErr)
        else (if neg = true then -(un : Int) else (un : Int), none)) =
    decimalBody neg body := by
  have hbit : (if b = 0 then IntSize else b) = 64 := by
    rcases hb with rfl | rfl <;> simp [IntSize]
  rw [ParseUint_eq body b hb]
  simp only [hbit]
  unfold decimalBody
  by_cases h1 : decAcc 0 (body.takeWhile isDigit) ≥ 2 ^ 64
  · simp only [if_pos h1]
    cases neg <;> simp
  · simp only [if_neg h1]
    by_cases h2 : body.takeWhile isDigit = [] ∨ body.takeWhile isDigit ≠ body
    · simp only [if_pos h2]
    · simp only [if_neg h2]
      generalize decAcc 0 (body.takeWhile isDigit) = v
      cases neg
      · by_cases h3 : v ≥ 2 ^ 63
        · simp [h3]
        · simp [h3]
      · by_cases h3 : v > 2 ^ 63
        · simp [h3]
        · simp [h3]

theorem atoiSpec_nil : atoiSpec [] = (0, some .syntaxErr) := by
  simp [atoiSpec, decimalBody, hasMinus, unsignedPart, decAcc]

theorem atoiSpec_cons (c : Char) (cs : List Char) :
    atoiSpec (c :: cs) =
      if c = '-' then decimalBody true cs
      else if c = '+' then decimalBody false cs
      else decimalBody false (c :: cs) := by
  unfold atoiSpec hasMinus unsignedPart
  by_cases hm : c = '-'
  · subst hm; simp
  · by_cases hp : c = '+'
    · subst hp; simp
    · simp [hm, hp]

/-- `strconv.ParseInt(s, 10, bitSize)` with `bitSize` 0 or 64 computes the
decimal specification `atoiSpec`. -/
theorem ParseInt_eq_atoiSpec (s : List Char) (b : Nat) (hb : b = 0 ∨ b = 64) :
    ParseInt s b = atoiSpec s := by
  cases s with
  | nil => simp [ParseInt, atoiSpec_nil]
  | cons c cs =>
    simp only [atoiSpec_cons, ParseInt]
    by_cases hm : c = '-'
    · subst hm
      simpa using slowBody_eq true cs b hb
    · by_cases hp : c = '+'
      · subst hp
        simpa using slowBody_eq false cs b hb
      · simpa [hm, hp] using slowBody_eq false (c :: cs) b hb

/-- `strconv.Atoi` computes the decimal specification `atoiSpec`. -/
theorem Atoi_eq_atoiSpec (s : List Char) :
    Atoi s = ((atoiSpec s).1, (atoiSpec s).2.map Error.numError) := by
  unfold Atoi
  split
  · rename_i hlen
    cases s with
    | nil => simp [byteLen] at hlen
    | cons c cs =>
      have hl := length_le_byteLen (c :: cs)
      simp only [List.length_cons] at hl
      simp only [atoiSpec_cons]
      by_cases hm : c = '-'
      · subst hm
        simpa using fastBody_eq true cs (by omega)
      · by_cases hp : c = '+'
        · subst hp
          simpa using fastBody_eq false cs (by omega)
        · simpa [hm, hp] using fastBody_eq false (c :: cs) (by simp; omega)
  · rw [ParseInt_eq_atoiSpec s 0 (Or.inl rfl)]

/-! ## The loop body of `ParseProcStatus` -/

set_option maxHeartbeats 1000000 in
/-- Effect of one line on a scalar integer field. -/
theorem processLine_scalar (K : ScalarKey) (st : ProcStatus) (l : List Char) :
    K.get (processLine st l) =
      if lineKey l = some K.name then (Atoi (lineValue l)).1 else K.get st := by
  unfold processLine lineKey lineValue lineText
  cases h : SplitN2 l with
  | none => simp
  | some p =>
    obtain ⟨p0, p1⟩ := p
    simp only [Option.map_some', Option.some.injEq]
    generalize TrimSpace p0 = key
    generalize TrimSpace (ReplaceKB (TrimSpace p1)) = v
    by_cases hk : key = K.name
    · subst hk
      rw [if_pos rfl]
      cases K <;> rfl
    · rw [if_neg hk]
      cases hf : FindStringSubmatch v <;>
      simp only [apply_ite (ScalarKey.get K)] <;>
      cases K <;>
      simp only [ScalarKey.get, ScalarKey.name] at hk ⊢ <;>
      simp only [if_neg hk, ite_self]

/-- Effect of one line on the field `Name`. -/
theorem processLine_Name (st : ProcStatus) (l : List Char) :
    (processLine st l).Name =
      if lineKey l = some ['N', 'a', 'm', 'e'] then lineValue l else st.Name := by
  unfold processLine lineKey lineValue lineText
  cases h : SplitN2 l with
  | none => simp
  | some p =>
    obtain ⟨p0, p1⟩ := p
    simp only [Option.map_some', Option.some.injEq]
    generalize TrimSpace p0 = key
    generalize TrimSpace (ReplaceKB (TrimSpace p1)) = v
    by_cases hk : key = ['N', 'a', 'm', 'e']
    · subst hk
      rfl
    · rw [if_neg hk, if_neg hk]
      cases hf : FindStringSubmatch v <;>
      simp only [apply_ite ProcStatus.Name, ite_self]

/-- Effect of one line on the field `State`. -/
theorem processLine_State (st : ProcStatus) (l : List Char) :
    (processLine st l).State =
      if lineKey l = some ['S', 't', 'a', 't', 'e'] then
        (FindStringSubmatch (lineValue l)).getD st.State
      else st.State := by
  unfold processLine lineKey lineValue lineText
  cases h : SplitN2 l with
  | none => simp
  | some p =>
    obtain ⟨p0, p1⟩ := p
    simp only [Option.map_some', Option.some.injEq]
    generalize TrimSpace p0 = key
    generalize TrimSpace (ReplaceKB (TrimSpace p1)) = v
    by_cases hk : key = ['S', 't', 'a', 't', 'e']
    · subst hk
      rw [if_pos rfl]
      cases hf : FindStringSubmatch v <;> rfl
    · rw [if_neg hk]
      simp only [if_neg hk, apply_ite ProcStatus.State, ite_self]

/-! ## The scanning loop -/

theorem lastWithKey_append_singleton (key : List Char) (ls : List (List Char)) (l : List Char) :
    lastWithKey key (ls ++ [l]) =
      if lineKey l = some key then some l else lastWithKey key ls := by
  unfold lastWithKey
  rw [List.filter_append]
  by_cases h : lineKey l = some key
  · simp [List.filter, h]
  · simp [List.filter, h]

theorem foldl_processLine_scalar (K : ScalarKey) (ls : List (List Char)) (st : ProcStatus) :
    K.get (ls.foldl processLine st) =
      match lastWithKey K.name ls with
      | some l => (Atoi (lineValue l)).1
      | none => K.get st := by
  induction ls using List.reverseRecOn with
  | nil => simp [lastWithKey]
  | append_singleton ls l ih =>
    rw [List.foldl_append, lastWithKey_append_singleton]
    simp only [List.foldl_cons, List.foldl_nil, processLine_scalar]
    by_cases h : lineKey l = some K.name
    · simp [h]
    · simp [h, ih]

theorem foldl_processLine_Name (ls : List (List Char)) (st : ProcStatus) :
    (ls.foldl processLine st).Name =
      match lastWithKey ['N', 'a', 'm', 'e'] ls with
      | some l => lineValue l
      | none => st.Name := by
  induction ls using List.reverseRecOn with
  | nil => simp [lastWithKey]
  | append_singleton ls l ih =>
    rw [List.foldl_append, lastWithKey_append_singleton]
    simp only [List.foldl_cons, List.foldl_nil, processLine_Name]
    by_cases h : lineKey l = some ['N', 'a', 'm', 'e']
    · simp [h]
    · simp [h, ih]

theorem scanLoop_of_short (ls : List (List Char)) :
    ∀ st, (∀ l ∈ ls, byteLen l < MaxScanTokenSize) →
      scanLoop st ls = ((ls.map dropCR).foldl processLine st, none) := by
  induction ls with
  | nil => intro st _; rfl
  | cons l ls ih =>
    intro st h
    have hl := h l (List.mem_cons_self _ _)
    unfold scanLoop
    rw [if_neg (by omega), ih _ (fun x hx => h x (List.mem_cons_of_mem _ hx))]
    rfl

theorem scanLoop_of_long (ls : List (List Char)) :
    ∀ st, (∃ l ∈ ls, byteLen l ≥ MaxScanTokenSize) →
      (scanLoop st ls).2 = some .tooLong := by
  induction ls with
  | nil => intro st h; simp at h
  | cons l ls ih =>
    intro st h
    unfold scanLoop
    by_cases hl : byteLen l ≥ MaxScanTokenSize
    · rw [if_pos hl]
    · rw [if_neg hl]
      apply ih
      obtain ⟨x, hx, hxl⟩ := h
      rcases List.mem_cons.mp hx with rfl | hx
      · exact absurd hxl hl
      · exact ⟨x, hx, hxl⟩

/-- The status parser returns a record exactly when every line fits the
scanner's buffer, and the record is then the fold of the loop body over the
lines. -/
theorem ParseProcStatus_eq_some_iff (c : List Char) (st : ProcStatus) :
    ParseProcStatus c = (some st, none) ↔
      (∀ l ∈ rawLines c, byteLen l < MaxScanTokenSize) ∧
        st = (statusLines c).foldl processLine {} := by
  unfold ParseProcStatus statusLines
  by_cases h : ∀ l ∈ rawLines c, byteLen l < MaxScanTokenSize
  · rw [scanLoop_of_short _ _ h]
    simp only [Prod.mk.injEq, Option.some.injEq, and_true]
    constructor
    · intro h1; exact ⟨h, h1.symm⟩
    · intro h1; exact h1.2.symm
  · have h' : ∃ l ∈ rawLines c, byteLen l ≥ MaxScanTokenSize := by
      push_neg at h; exact h
    have := scanLoop_of_long _ {} h'
    cases hs : scanLoop {} (rawLines c) with
    | mk a b =>
      rw [hs] at this
      simp only at this
      subst this
      simp [h]


theorem lastWithKey_of_filter_eq_singleton (key : List Char) (ls : List (List Char))
    (l : List Char) (h : ls.filter (fun x => lineKey x = some key) = [l]) :
    lastWithKey key ls = some l := by
  unfold lastWithKey
  rw [h]
  rfl

/-- A scalar integer field of the returned record is what `strconv.Atoi`
gives on the value of the last line with that key, and 0 without such line. -/
theorem ParseProcStatus_scalar (K : ScalarKey) (c : List Char) (st : ProcStatus)
    (h : ParseProcStatus c = (some st, none)) :
    K.get st =
      match lastWithKey K.name (statusLines c) with
      | some l => (Atoi (lineValue l)).1
      | none => 0 := by
  obtain ⟨_, hst⟩ := (ParseProcStatus_eq_some_iff c st).mp h
  rw [hst, foldl_processLine_scalar]
  cases lastWithKey K.name (statusLines c) with
  | some l => rfl
  | none => cases K <;> rfl

/-! ## C1: `Name` and `Umask` -/

/-- C1 (code evaluated at the failing input): on the status content
`Name:\tkBtool` the parser returns the record whose `Name` is `tool`, although
the text after the colon, trimmed, is `kBtool`: every occurrence of `kB` is
deleted from the value of every key, the string fields included. -/
theorem C1_Name_loses_kB :
    ParseProcStatus "Name:\tkBtool".toList = (some { Name := "tool".toList }, none) ∧
      TrimSpace (lineText "Name:\tkBtool".toList) = "kBtool".toList := by
  decide

/-! ## C2: scalar values that do not parse -/

/-- C2 (counterexample): the content `Pid:\t99999999999999999999` has exactly
one `Pid` line, its value does not parse (`strconv.Atoi` reports a range
error), and yet the field `Pid` of the returned record is `2^63 - 1`, not 0. -/
theorem C2_counterexample :
    ParseProcStatus "Pid:\t99999999999999999999".toList =
        (some { Pid := 9223372036854775807 }, none) ∧
      (statusLines "Pid:\t99999999999999999999".toList).filter
          (fun l => lineKey l = some ScalarKey.Pid.name) =
        ["Pid:\t99999999999999999999".toList] ∧
      Atoi (lineValue "Pid:\t99999999999999999999".toList) =
        (9223372036854775807, some (.numError .rangeErr)) := by
  decide

/-- C2 (amended): when a status content has exactly one line with the scalar
integer key `K` and the value of that line (trimmed, `kB` removed) does not
parse as a base-10 integer, field `K` of the returned record is 0, except when
the failure is one of range: the value is an optional sign followed by decimal
digits only, or by leading digits that already exceed `2^64 - 1`; the field
is then the nearest 64-bit bound, `2^63 - 1`, or `-2^63` after a minus sign. -/
theorem C2_unparsable_scalar (K : ScalarKey) (c : List Char) (st : ProcStatus)
    (l : List Char)
    (hret : ParseProcStatus c = (some st, none))
    (hone : (statusLines c).filter (fun x => lineKey x = some K.name) = [l])
    (hfail : (Atoi (lineValue l)).2 ≠ none) :
    K.get st =
      if (leadingDigits (lineValue l) ≠ [] ∧
            leadingDigits (lineValue l) = unsignedPart (lineValue l)) ∨
          decAcc 0 (leadingDigits (lineValue l)) ≥ 2 ^ 64
      then nearestBound (lineValue l) else 0 := by
  rw [ParseProcStatus_scalar K c st hret,
    lastWithKey_of_filter_eq_singleton _ _ _ hone]
  simp only
  rw [Atoi_eq_atoiSpec] at hfail ⊢
  simp only [Option.map_eq_none', ne_eq] at hfail ⊢
  generalize lineValue l = v at hfail ⊢
  unfold atoiSpec decimalBody at hfail ⊢
  unfold leadingDigits nearestBound
  simp only at hfail ⊢
  generalize hd : (unsignedPart v).takeWhile isDigit = d at hfail ⊢
  generalize hN : decAcc 0 d = N at hfail ⊢
  by_cases h1 : N ≥ 2 ^ 64
  · rw [if_pos h1, if_pos (Or.inr h1)]
  · rw [if_neg h1] at hfail ⊢
    by_cases h2 : d = [] ∨ d ≠ unsignedPart v
    · rw [if_pos h2]
      have : ¬ ((d ≠ [] ∧ d = unsignedPart v) ∨ N ≥ 2 ^ 64) := by
        rintro (⟨ha, hb⟩ | hc)
        · rcases h2 with h2 | h2
          · exact ha h2
          · exact h2 hb
        · exact h1 hc
      rw [if_neg this]
    · rw [if_neg h2] at hfail ⊢
      have h2' : d ≠ [] ∧ d = unsignedPart v := by
        constructor
        · intro h; exact h2 (Or.inl h)
        · by_contra h; exact h2 (Or.inr h)
      rw [if_pos (Or.inl h2')]
      split
      · rfl
      · rename_i h3
        rw [if_neg h3] at hfail
        simp at hfail

/-- Instance of `C2_unparsable_scalar`: the value `12a` is a syntax error and
leaves `Pid` at 0. -/
theorem C2_unparsable_scalar_witness :
    ParseProcStatus "Pid:\t12a".toList = (some {}, none) ∧
      (Atoi (lineValue "Pid:\t12a".toList)).2 ≠ none ∧
      ScalarKey.Pid.get {} = 0 :=
  ⟨by decide, by decide,
    (C2_unparsable_scalar .Pid "Pid:\t12a".toList {} "Pid:\t12a".toList
      (by decide) (by decide) (by decide)).trans (by decide)⟩


/-! ## Decimal rendering -/

theorem digitVal_digitChar (d : Nat) (h : d < 10) : digitVal (digitChar d) = some d := by
  interval_cases d <;> rfl

theorem isDigit_digitChar (d : Nat) (h : d < 10) : isDigit (digitChar d) = true := by
  simp [isDigit, digitVal_digitChar d h]

theorem decAcc_map_digitChar (ds : List Nat) (h : ∀ d ∈ ds, d < 10) :
    ∀ a, decAcc a (ds.map digitChar) = ds.foldl (fun x d => x * 10 + d) a := by
  induction ds with
  | nil => intro a; rfl
  | cons d ds ih =>
    intro a
    have hd := h d (List.mem_cons_self _ _)
    simp only [List.map_cons, decAcc_cons, digitVal_digitChar d hd, Option.getD_some,
      List.foldl_cons]
    exact ih (fun x hx => h x (List.mem_cons_of_mem _ hx)) _

theorem foldl_reverse_digits (l : List Nat) :
    l.reverse.foldl (fun x d => x * 10 + d) 0 = Nat.ofDigits 10 l := by
  induction l with
  | nil => rfl
  | cons d l ih =>
    simp only [List.reverse_cons, List.foldl_append, List.foldl_cons, List.foldl_nil, ih,
      Nat.ofDigits_cons]
    ring

theorem decAcc_formatNat (n : Nat) : decAcc 0 (formatNat n) = n := by
  unfold formatNat
  split
  · rename_i h; subst h; rfl
  · rw [decAcc_map_digitChar _ (fun d hd => by
      rw [List.mem_reverse] at hd
      exact Nat.digits_lt_base (by norm_num) hd), foldl_reverse_digits, Nat.ofDigits_digits]

theorem formatNat_ne_nil (n : Nat) : formatNat n ≠ [] := by
  unfold formatNat
  split
  · simp
  · rename_i h
    simp [Nat.digits_ne_nil_iff_ne_zero, h]

theorem isDigit_of_mem_formatNat (n : Nat) (c : Char) (h : c ∈ formatNat n) :
    isDigit c = true := by
  unfold formatNat at h
  split at h
  · simp at h; subst h; rfl
  · simp only [List.mem_map, List.mem_reverse] at h
    obtain ⟨d, hd, rfl⟩ := h
    exact isDigit_digitChar d (Nat.digits_lt_base (by norm_num) hd)

theorem takeWhile_isDigit_formatNat (n : Nat) :
    (formatNat n).takeWhile isDigit = formatNat n :=
  List.takeWhile_eq_self_iff.mpr (fun c hc => isDigit_of_mem_formatNat n c hc)

theorem isDigit_toNat {c : Char} (h : isDigit c = true) : 48 ≤ c.toNat ∧ c.toNat ≤ 57 := by
  unfold isDigit digitVal at h
  split at h
  · rename_i hc
    have h0 : ('0' : Char).toNat = 48 := by decide
    have h9 : ('9' : Char).toNat = 57 := by decide
    omega
  · simp at h

theorem hasMinus_formatNat (n : Nat) : hasMinus (formatNat n) = false := by
  have hne := formatNat_ne_nil n
  cases h : formatNat n with
  | nil => exact absurd h hne
  | cons c cs =>
    have hc : isDigit c = true := isDigit_of_mem_formatNat n c (by rw [h]; simp)
    have := isDigit_toNat hc
    simp only [hasMinus, List.head?_cons, Option.some.injEq, decide_eq_false_iff_not]
    intro hcm
    subst hcm
    revert this
    decide

theorem unsignedPart_formatNat (n : Nat) : unsignedPart (formatNat n) = formatNat n := by
  have hne := formatNat_ne_nil n
  cases h : formatNat n with
  | nil => exact absurd h hne
  | cons c cs =>
    have hc : isDigit c = true := isDigit_of_mem_formatNat n c (by rw [h]; simp)
    have := isDigit_toNat hc
    have h1 : c ≠ '-' := by
      intro hcm; subst hcm; revert this; decide
    have h2 : c ≠ '+' := by
      intro hcm; subst hcm; revert this; decide
    simp [unsignedPart, h1, h2]

/-- Parsing the decimal rendering of a 64-bit integer gives the integer back. -/
theorem Atoi_Itoa (n : Int) (h1 : -(2 ^ 63 : Int) ≤ n) (h2 : n < 2 ^ 63) :
    Atoi (Itoa n) = (n, none) := by
  rw [Atoi_eq_atoiSpec]
  unfold Itoa
  by_cases hneg : n < 0
  · rw [if_pos hneg]
    have hb : n.natAbs ≤ 2 ^ 63 := by omega
    simp only [atoiSpec, hasMinus, unsignedPart, decimalBody, List.head?_cons, List.tail_cons,
      true_or, if_true, decide_True, takeWhile_isDigit_formatNat, decAcc_formatNat]
    have hne := formatNat_ne_nil n.natAbs
    rw [if_neg (by omega), if_neg (by simp [hne]), if_neg (by simp; omega)]
    have : -(n.natAbs : Int) = n := by omega
    simp only [if_true, this]
    rfl
  · rw [if_neg hneg]
    have hb : n.natAbs < 2 ^ 63 := by omega
    have hne := formatNat_ne_nil n.natAbs
    simp only [atoiSpec, hasMinus_formatNat, unsignedPart_formatNat, decimalBody,
      takeWhile_isDigit_formatNat, decAcc_formatNat]
    rw [if_neg (by omega), if_neg (by simp [hne]), if_neg (by simp; omega)]
    have : (n.natAbs : Int) = n := by omega
    simp only [this]
    rfl


/-! ## Lemmas on the string functions -/

theorem SplitN2_append_colon (a b : List Char) (h : ∀ c ∈ a, c ≠ ':') :
    SplitN2 (a ++ ':' :: b) = some (a, b) := by
  induction a with
  | nil => simp [SplitN2]
  | cons c cs ih =>
    have hc := h c (List.mem_cons_self _ _)
    have ih' := ih (fun x hx => h x (List.mem_cons_of_mem _ hx))
    rw [List.cons_append, SplitN2, if_neg hc, ih']

theorem dropWhile_append_of_forall (p : Char → Bool) (w r : List Char)
    (h : ∀ c ∈ w, p c = true) : (w ++ r).dropWhile p = r.dropWhile p := by
  induction w with
  | nil => rfl
  | cons c cs ih =>
    simp only [List.cons_append, List.dropWhile, h c (List.mem_cons_self _ _)]
    exact ih (fun x hx => h x (List.mem_cons_of_mem _ hx))

theorem dropWhile_of_head (p : Char → Bool) (x : List Char)
    (h : ∀ a, x.head? = some a → p a = false) : x.dropWhile p = x := by
  cases x with
  | nil => rfl
  | cons a r => simp [List.dropWhile, h a rfl]

/-- Trimming removes white space around a text that neither starts nor ends
with white space. -/
theorem TrimSpace_pad (w1 x w2 : List Char)
    (h1 : ∀ c ∈ w1, isSpace c = true) (h2 : ∀ c ∈ w2, isSpace c = true)
    (hh : ∀ a, x.head? = some a → isSpace a = false)
    (hl : ∀ b, x.getLast? = some b → isSpace b = false) :
    TrimSpace (w1 ++ x ++ w2) = x := by
  unfold TrimSpace
  rw [List.append_assoc, dropWhile_append_of_forall _ _ _ h1]
  have e1 : (x ++ w2).dropWhile isSpace = x ++ (if x = [] then w2.dropWhile isSpace else w2) := by
    cases x with
    | nil => simp
    | cons a r => simp [List.dropWhile, hh a rfl]
  rw [e1]
  by_cases hx : x = []
  · subst hx
    simp only [if_true, List.nil_append]
    have : (w2.dropWhile isSpace) = [] := by
      rw [List.dropWhile_eq_nil_iff]
      exact h2
    rw [this]
    rfl
  · rw [if_neg hx, List.reverse_append,
      dropWhile_append_of_forall _ _ _ (fun c hc => h2 c (List.mem_reverse.mp hc)),
      dropWhile_of_head, List.reverse_reverse]
    intro a ha
    apply hl
    rw [← List.head?_reverse]
    exact ha

theorem ReplaceKB_cons_of_ne (c : Char) (rest : List Char) (h : c ≠ 'k') :
    ReplaceKB (c :: rest) = c :: ReplaceKB rest := by
  cases rest with
  | nil => simp [ReplaceKB]
  | cons d r => simp [ReplaceKB, h]

theorem ReplaceKB_append_of_forall (x y : List Char) (h : ∀ c ∈ x, c ≠ 'k') :
    ReplaceKB (x ++ y) = x ++ ReplaceKB y := by
  induction x with
  | nil => rfl
  | cons c cs ih =>
    rw [List.cons_append, ReplaceKB_cons_of_ne _ _ (h c (List.mem_cons_self _ _)),
      ih (fun z hz => h z (List.mem_cons_of_mem _ hz))]
    rfl

theorem isSpace_ne_k {c : Char} (h : isSpace c = true) : c ≠ 'k' := by
  intro hc; subst hc; revert h; decide

theorem not_isSpace_of_isDigit {c : Char} (h : isDigit c = true) : isSpace c = false := by
  have := isDigit_toNat h
  unfold isSpace
  simp only [Bool.or_eq_false_iff, Bool.and_eq_false_iff, decide_eq_false_iff_not,
    beq_eq_false_iff_ne, ne_eq]
  refine ⟨⟨⟨⟨⟨⟨⟨⟨⟨⟨?_, ?_⟩, ?_⟩, ?_⟩, ?_⟩, ?_⟩, ?_⟩, ?_⟩, ?_⟩, ?_⟩, ?_⟩ <;> omega

theorem ne_k_of_isDigit {c : Char} (h : isDigit c = true) : c ≠ 'k' := by
  intro hc; subst hc; revert h; decide

theorem mem_Itoa (n : Int) (c : Char) (h : c ∈ Itoa n) : c = '-' ∨ isDigit c = true := by
  unfold Itoa at h
  split at h
  · rcases List.mem_cons.mp h with h | h
    · exact Or.inl h
    · exact Or.inr (isDigit_of_mem_formatNat _ _ h)
  · exact Or.inr (isDigit_of_mem_formatNat _ _ h)

theorem Itoa_ne_nil (n : Int) : Itoa n ≠ [] := by
  unfold Itoa
  split
  · simp
  · exact formatNat_ne_nil _

theorem not_isSpace_of_mem_Itoa (n : Int) (c : Char) (h : c ∈ Itoa n) :
    isSpace c = false := by
  rcases mem_Itoa n c h with h | h
  · subst h; decide
  · exact not_isSpace_of_isDigit h

theorem ne_k_of_mem_Itoa (n : Int) (c : Char) (h : c ∈ Itoa n) : c ≠ 'k' := by
  rcases mem_Itoa n c h with h | h
  · subst h; decide
  · exact ne_k_of_isDigit h


/-! ## C3: scalar values in decimal -/

theorem ScalarKey.name_no_colon (K : ScalarKey) : ∀ c ∈ K.name, c ≠ ':' := by
  cases K <;> decide

theorem ScalarKey.TrimSpace_name (K : ScalarKey) : TrimSpace K.name = K.name := by
  cases K <;> rfl

theorem lineKey_scalar (K : ScalarKey) (rest : List Char) :
    lineKey (K.name ++ ':' :: rest) = some K.name := by
  unfold lineKey
  rw [SplitN2_append_colon _ _ K.name_no_colon]
  simp [K.TrimSpace_name]

theorem lineText_scalar (K : ScalarKey) (rest : List Char) :
    lineText (K.name ++ ':' :: rest) = rest := by
  unfold lineText
  rw [SplitN2_append_colon _ _ K.name_no_colon]

theorem head_Itoa_not_space (n : Int) (tail : List Char) :
    ∀ a, (Itoa n ++ tail).head? = some a → isSpace a = false := by
  intro a ha
  rw [List.head?_append_of_ne_nil _ (Itoa_ne_nil n)] at ha
  exact not_isSpace_of_mem_Itoa n a (List.mem_of_mem_head? ha)

theorem last_Itoa_not_space (n : Int) :
    ∀ b, (Itoa n).getLast? = some b → isSpace b = false := by
  intro b hb
  exact not_isSpace_of_mem_Itoa n b (List.mem_of_getLast?_eq_some hb)

/-- The value of a line made of white space, a decimal rendering and,
optionally, white space and the unit `kB`, is the decimal rendering. -/
theorem lineValue_decimal (K : ScalarKey) (n : Int) (ws1 ws2 : List Char) (unit : Bool)
    (h1 : ∀ ch ∈ ws1, isSpace ch = true) (h2 : ∀ ch ∈ ws2, isSpace ch = true) :
    lineValue (K.name ++ ':' :: (ws1 ++ Itoa n ++ (if unit then ws2 ++ ['k', 'B'] else []))) =
      Itoa n := by
  unfold lineValue
  rw [lineText_scalar]
  have hpad0 : TrimSpace (Itoa n) = Itoa n := by
    have := TrimSpace_pad [] (Itoa n) [] (by simp) (by simp)
      (by simpa using head_Itoa_not_space n []) (last_Itoa_not_space n)
    simpa using this
  cases unit with
  | false =>
    simp only [Bool.false_eq_true, if_false, List.append_nil]
    have e1 : TrimSpace (ws1 ++ Itoa n) = Itoa n := by
      have := TrimSpace_pad ws1 (Itoa n) [] h1 (by simp)
        (by simpa using head_Itoa_not_space n []) (last_Itoa_not_space n)
      simpa using this
    have e2 : ReplaceKB (Itoa n) = Itoa n := by
      have := ReplaceKB_append_of_forall (Itoa n) [] (ne_k_of_mem_Itoa n)
      simpa [ReplaceKB] using this
    rw [e1, e2, hpad0]
  | true =>
    simp only [if_true]
    have e1 : TrimSpace (ws1 ++ Itoa n ++ (ws2 ++ ['k', 'B'])) =
        Itoa n ++ (ws2 ++ ['k', 'B']) := by
      have := TrimSpace_pad ws1 (Itoa n ++ (ws2 ++ ['k', 'B'])) [] h1 (by simp)
        (head_Itoa_not_space n _)
        (by
          intro b hb
          have : (Itoa n ++ ws2 ++ ['k'] ++ ['B']).getLast? = some 'B' :=
            List.getLast?_concat _
          rw [show Itoa n ++ (ws2 ++ ['k', 'B']) = Itoa n ++ ws2 ++ ['k'] ++ ['B'] by simp,
            this] at hb
          cases hb
          decide)
      simpa [List.append_assoc] using this
    have e2 : ReplaceKB (Itoa n ++ (ws2 ++ ['k', 'B'])) = Itoa n ++ ws2 := by
      rw [← List.append_assoc, ReplaceKB_append_of_forall]
      · simp [ReplaceKB]
      · intro c hc
        rcases List.mem_append.mp hc with hc | hc
        · exact ne_k_of_mem_Itoa n c hc
        · exact isSpace_ne_k (h2 c hc)
    have e3 : TrimSpace (Itoa n ++ ws2) = Itoa n := by
      have := TrimSpace_pad [] (Itoa n) ws2 (by simp) h2
        (by simpa using head_Itoa_not_space n []) (last_Itoa_not_space n)
      simpa using this
    rw [e1, e2, e3]

/-- C3: for every scalar integer key `K` and every 64-bit integer `n`, when
the last line with key `K` of a status content is `K`, a colon, white space,
the decimal rendering of `n` and, optionally, white space and the suffix
`kB`, field `K` of the returned record is `n`. -/
theorem C3_scalar_decimal (K : ScalarKey) (n : Int) (ws1 ws2 : List Char) (unit : Bool)
    (c : List Char) (st : ProcStatus)
    (hlo : -(2 ^ 63 : Int) ≤ n) (hhi : n < 2 ^ 63)
    (h1 : ∀ ch ∈ ws1, isSpace ch = true) (h2 : ∀ ch ∈ ws2, isSpace ch = true)
    (hret : ParseProcStatus c = (some st, none))
    (hlast : lastWithKey K.name (statusLines c) =
      some (K.name ++ ':' :: (ws1 ++ Itoa n ++ (if unit then ws2 ++ ['k', 'B'] else [])))) :
    K.get st = n := by
  rw [ParseProcStatus_scalar K c st hret, hlast]
  simp only
  rw [lineValue_decimal K n ws1 ws2 unit h1 h2, Atoi_Itoa n hlo hhi]


/-- Instances of `C3_scalar_decimal`: `VmRSS:    1234 kB` gives `VmRSS = 1234`
and `FDSize:  64`, without unit, gives `FDSize = 64`. -/
theorem C3_scalar_decimal_witness :
    (ParseProcStatus "VmRSS:    1234 kB".toList = (some { VmRSS := 1234 }, none) ∧
      ScalarKey.VmRSS.get { VmRSS := 1234 } = 1234) ∧
    (ParseProcStatus "FDSize:  64".toList = (some { FDSize := 64 }, none) ∧
      ScalarKey.FDSize.get { FDSize := 64 } = 64) :=
  ⟨⟨by decide,
    C3_scalar_decimal .VmRSS 1234 "    ".toList " ".toList true "VmRSS:    1234 kB".toList
      { VmRSS := 1234 } (by norm_num) (by norm_num) (by decide) (by decide) (by decide)
      (by
        have hI : Itoa 1234 = "1234".toList := by norm_num [Itoa, formatNat, digitChar]
        rw [hI]
        decide)⟩,
   ⟨by decide,
    C3_scalar_decimal .FDSize 64 "  ".toList [] false "FDSize:  64".toList
      { FDSize := 64 } (by norm_num) (by norm_num) (by decide) (by decide) (by decide)
      (by
        have hI : Itoa 64 = "64".toList := by norm_num [Itoa, formatNat, digitChar]
        rw [hI]
        decide)⟩⟩


/-! ## The regular expression of `State` -/

theorem untilClose_eq (v : List Char) :
    untilClose v = if ')' ∈ v then some (v.takeWhile (fun c => c != ')')) else none := by
  induction v with
  | nil => simp [untilClose]
  | cons c cs ih =>
    unfold untilClose
    by_cases hc : c = ')'
    · subst hc; simp
    · rw [if_neg hc, ih]
      have hc' : ¬ (')' = c) := fun h => hc h.symm
      by_cases hm : ')' ∈ cs
      · simp [hm, hc, List.takeWhile_cons]
      · simp [hm, hc']

theorem betweenParens_eq_none_of_not_mem (v : List Char) (h : ')' ∉ v) :
    betweenParens v = none := by
  unfold betweenParens
  split
  · have : ')' ∉ (v.dropWhile (fun c => c != '(')).tail := by
      intro hm
      exact h ((List.dropWhile_suffix _).subset (List.mem_of_mem_tail hm))
    simp [this]
  · rfl

/-- The match of the regular expression `\((.*?)\)` is the text between the
first opening parenthesis and the first closing parenthesis after it. -/
theorem FindStringSubmatch_eq_betweenParens (v : List Char) :
    FindStringSubmatch v = betweenParens v := by
  induction v with
  | nil => simp [FindStringSubmatch, betweenParens]
  | cons c cs ih =>
    unfold FindStringSubmatch
    by_cases hc : c = '('
    · subst hc
      rw [if_pos rfl, untilClose_eq]
      by_cases hm : ')' ∈ cs
      · simp [betweenParens, hm, List.dropWhile_cons]
      · rw [if_neg hm]
        simp only [ih, betweenParens_eq_none_of_not_mem cs hm]
        simp [betweenParens, hm, List.dropWhile_cons]
    · rw [if_neg hc, ih]
      have hc' : ¬ ('(' = c) := fun h => hc h.symm
      simp [betweenParens, List.dropWhile_cons, hc, hc']

theorem foldl_processLine_State_single (ls : List (List Char)) (l : List Char)
    (h : ls.filter (fun x => lineKey x = some ['S', 't', 'a', 't', 'e']) = [l]) :
    ∀ st, (ls.foldl processLine st).State =
      (FindStringSubmatch (lineValue l)).getD st.State := by
  induction ls with
  | nil => simp at h
  | cons x xs ih =>
    intro st
    simp only [List.foldl_cons]
    by_cases hx : lineKey x = some ['S', 't', 'a', 't', 'e']
    · simp only [List.filter, hx, decide_True, List.cons.injEq] at h
      obtain ⟨rfl, hxs⟩ := h
      have hframe : ∀ (ys : List (List Char)) (s : ProcStatus),
          ys.filter (fun y => lineKey y = some ['S', 't', 'a', 't', 'e']) = [] →
          (ys.foldl processLine s).State = s.State := by
        intro ys
        induction ys with
        | nil => intro s _; rfl
        | cons y ys ihy =>
          intro s hy
          by_cases hyk : lineKey y = some ['S', 't', 'a', 't', 'e']
          · simp [List.filter, hyk] at hy
          · simp only [List.filter, hyk, decide_False] at hy
            rw [List.foldl_cons, ihy _ hy, processLine_State, if_neg hyk]
      rw [hframe xs _ hxs, processLine_State, if_pos hx]
    · simp only [List.filter, hx, decide_False] at h
      rw [ih h, processLine_State, if_neg hx]



/-! ## C5: `parseToIntArray` -/

theorem FieldsAux_eq (cs : List Char) : ∀ cur : List Char,
    FieldsAux cur cs =
      ((cs.splitOnP isSpace).modifyHead (fun t => cur.reverse ++ t)).filter
        (fun t => t ≠ []) := by
  induction cs with
  | nil =>
    intro cur
    by_cases h : cur = []
    · subst h; simp [FieldsAux, List.splitOnP_nil, List.filter]
    · simp [FieldsAux, List.splitOnP_nil, List.filter, h]
  | cons c cs ih =>
    intro cur
    unfold FieldsAux
    rw [List.splitOnP_cons]
    by_cases hc : isSpace c = true
    · rw [if_pos hc, if_pos hc]
      have e0 : FieldsAux [] cs = (cs.splitOnP isSpace).filter (fun t => t ≠ []) := by
        rw [ih []]
        congr 1
        have : (fun t : List Char => ([] : List Char).reverse ++ t) = id := by
          funext t; simp
        rw [this, List.modifyHead_id]
        rfl
      by_cases h : cur = []
      · subst h
        rw [if_pos rfl, e0]
        simp [List.filter]
      · rw [if_neg h, e0]
        simp [List.filter, h]
    · rw [if_neg hc, if_neg hc, ih, List.modifyHead_modifyHead]
      congr 2
      funext t
      simp

/-- `strings.Fields` returns the white-space-delimited tokens. -/
theorem Fields_eq_tokens (s : List Char) : Fields s = tokens s := by
  unfold Fields tokens
  rw [FieldsAux_eq]
  congr 1
  have : (fun t : List Char => ([] : List Char).reverse ++ t) = id := by
    funext t; simp
  rw [this, List.modifyHead_id]
  rfl

theorem parseToIntArrayLoop_eq (ts : List (List Char)) : ∀ result : List Int,
    parseToIntArrayLoop result ts = result ++ ts.filterMap decimalValue := by
  induction ts with
  | nil => intro result; simp [parseToIntArrayLoop]
  | cons t ts ih =>
    intro result
    unfold parseToIntArrayLoop
    rw [Atoi_eq_atoiSpec]
    cases h : (atoiSpec t).2 with
    | none =>
      simp only [Option.map_none']
      rw [ih, List.filterMap_cons]
      simp [decimalValue, h]
    | some e =>
      simp only [Option.map_some']
      rw [ih, List.filterMap_cons]
      simp [decimalValue, h]

/-- C5: `parseToIntArray` is total and returns, in their order, the values of
the white-space-delimited tokens that are base-10 integers, and drops the
other tokens; `Uid:\t1000\t1000\t1000\t1000` gives `Uid = [1000,1000,1000,1000]`,
and an empty or all-white-space value gives the empty sequence. -/
theorem C5_parseToIntArray :
    (∀ s : List Char, parseToIntArray s = (tokens s).filterMap decimalValue) ∧
    (∀ s : List Char, (∀ c ∈ s, isSpace c = true) → (parseToIntArray s).length = 0) ∧
    ParseProcStatus "Uid:\t1000\t1000\t1000\t1000".toList =
      (some { Uid := [1000, 1000, 1000, 1000] }, none) ∧
    ParseProcStatus "Uid:\t".toList = (some { Uid := [] }, none) := by
  refine ⟨?_, ?_, by decide, by decide⟩
  · intro s
    unfold parseToIntArray
    rw [parseToIntArrayLoop_eq, Fields_eq_tokens]
    rfl
  · intro s hs
    have : Fields s = [] := by
      unfold Fields
      have aux : ∀ cs : List Char, (∀ c ∈ cs, isSpace c = true) → FieldsAux [] cs = [] := by
        intro cs
        induction cs with
        | nil => intro _; rfl
        | cons c cs ih =>
          intro h
          unfold FieldsAux
          rw [if_pos (h c (List.mem_cons_self _ _)), if_pos rfl]
          exact ih (fun x hx => h x (List.mem_cons_of_mem _ hx))
      exact aux s hs
    simp [parseToIntArray, this, parseToIntArrayLoop]


/-! ## C10: `getChildPIDs` -/

theorem getChildPIDsLoop_of_all (ts : List (List Char)) : ∀ acc : List Int,
    (∀ t ∈ ts, decimalValue t ≠ none) →
      getChildPIDsLoop acc ts = (some (acc ++ ts.filterMap decimalValue), none) := by
  induction ts with
  | nil => intro acc _; simp [getChildPIDsLoop]
  | cons t ts ih =>
    intro acc h
    have ht := h t (List.mem_cons_self _ _)
    unfold getChildPIDsLoop
    rw [Atoi_eq_atoiSpec]
    cases he : (atoiSpec t).2 with
    | none =>
      simp only [Option.map_none']
      rw [ih _ (fun x hx => h x (List.mem_cons_of_mem _ hx)), List.filterMap_cons]
      simp [decimalValue, he]
    | some e => simp [decimalValue, he] at ht

theorem getChildPIDsLoop_of_exists (ts : List (List Char)) : ∀ acc : List Int,
    (∃ t ∈ ts, decimalValue t = none) →
      (getChildPIDsLoop acc ts).1 = none ∧ (getChildPIDsLoop acc ts).2 ≠ none := by
  induction ts with
  | nil => intro acc h; simp at h
  | cons t ts ih =>
    intro acc h
    unfold getChildPIDsLoop
    rw [Atoi_eq_atoiSpec]
    cases he : (atoiSpec t).2 with
    | none =>
      simp only [Option.map_none']
      apply ih
      obtain ⟨x, hx, hxv⟩ := h
      rcases List.mem_cons.mp hx with rfl | hx
      · simp [decimalValue, he] at hxv
      · exact ⟨x, hx, hxv⟩
    | some e => simp

/-- C10: `getChildPIDs` returns an error if and only if some
white-space-delimited token of the content is not a base-10 integer, and it
then returns no list (the nil slice). -/
theorem C10_getChildPIDs_error_iff (content : List Char) :
    ((getChildPIDs content).2 ≠ none ↔ ∃ t ∈ tokens content, decimalValue t = none) ∧
      ((getChildPIDs content).2 ≠ none → (getChildPIDs content).1 = none) := by
  unfold getChildPIDs
  rw [Fields_eq_tokens]
  by_cases h : ∃ t ∈ tokens content, decimalValue t = none
  · have := getChildPIDsLoop_of_exists _ [] h
    exact ⟨⟨fun _ => h, fun _ => this.2⟩, fun _ => this.1⟩
  · have hall : ∀ t ∈ tokens content, decimalValue t ≠ none := by
      intro t ht hv
      exact h ⟨t, ht, hv⟩
    rw [getChildPIDsLoop_of_all _ [] hall]
    simp [h]


/-! ## Known values of `float64` arithmetic -/

set_option exponentiation.threshold 4000 in
set_option maxRecDepth 100000 in
/-- The model of `float64` on well-known cases: `1/3`, `0.1*3`, which is
`0.30000000000000004`; ties go to the even significand (`2^53 + 1` becomes
`2^53`, `2^53 + 3` becomes `2^53 + 4`); division by zero gives an infinity
or NaN; the largest finite number doubled is an infinity; half the smallest
subnormal number is zero; `int` of `-2.5` is `-2`. -/
theorem F64_known_values :
    F64.ofInt 1 = .fin false 4503599627370496 (-52) ∧
    F64.div (F64.ofInt 1) (F64.ofInt 3) = .fin false 6004799503160661 (-54) ∧
    F64.mul (F64.div (F64.ofInt 1) (F64.ofInt 10)) (F64.ofInt 3) =
      .fin false 5404319552844596 (-54) ∧
    F64.ofInt 9007199254740993 = .fin false 4503599627370496 1 ∧
    F64.ofInt 9007199254740995 = .fin false 4503599627370498 1 ∧
    F64.div (F64.ofInt 1) (F64.ofInt 0) = .inf false ∧
    F64.div (F64.ofInt (-1)) (F64.ofInt 0) = .inf true ∧
    F64.div (F64.ofInt 0) (F64.ofInt 0) = .nan ∧
    F64.mul (.fin false 9007199254740991 971) (F64.ofInt 2) = .inf false ∧
    F64.div (.fin false 1 (-1074)) (F64.ofInt 2) = .fin false 0 (-1074) ∧
    F64.sub (F64.ofInt 5) (F64.ofInt 5) = .fin false 0 (-1074) ∧
    F64.toInt (F64.div (F64.ofInt (-5)) (F64.ofInt 2)) = -2 := by
  decide

/-! ## `GetMilliCPUUsage` -/

theorem GetMilliCPUUsage_eq (stat : List Char) (up : F64 × Option Error) (clk : Int) :
    GetMilliCPUUsage stat up clk = GetMilliCPUUsageOfFields (tokens stat) up clk := by
  unfold GetMilliCPUUsage getProcStat
  rw [Fields_eq_tokens]

theorem GetMilliCPUUsageOfFields_of_short (fields : List (List Char))
    (up : F64 × Option Error) (clk : Int) (h : fields.length < 22) :
    GetMilliCPUUsageOfFields fields up clk = (0, F64.ofInt 0, some .invalidStatFormat) := by
  unfold GetMilliCPUUsageOfFields
  rw [if_pos h]

/-- With 22 fields or more, the result is computed from the values that
`strconv.ParseInt` returns for the fields 13, 14 and 21, whether it accepted
them or not, and the only error is the one of `getUptime`. -/
theorem GetMilliCPUUsageOfFields_of_long (fields : List (List Char)) (uptime : F64)
    (clk : Int) (h : 22 ≤ fields.length) :
    GetMilliCPUUsageOfFields fields (uptime, none) clk =
      (usageOfTicks (atoiSpec (fields.getD 13 [])).1 (atoiSpec (fields.getD 14 [])).1
          (atoiSpec (fields.getD 21 [])).1 uptime clk,
        runtimeOfTicks (atoiSpec (fields.getD 13 [])).1 (atoiSpec (fields.getD 14 [])).1 clk,
        none) := by
  unfold GetMilliCPUUsageOfFields
  rw [if_neg (by omega)]
  simp only [ParseInt_eq_atoiSpec _ 64 (Or.inr rfl)]
  rfl

theorem GetMilliCPUUsageOfFields_error (fields : List (List Char)) (up : F64 × Option Error)
    (clk : Int) (h : 22 ≤ fields.length) :
    (GetMilliCPUUsageOfFields fields up clk).2.2 = up.2 := by
  obtain ⟨u, e⟩ := up
  cases e with
  | none => rw [GetMilliCPUUsageOfFields_of_long _ _ _ h]
  | some err =>
    unfold GetMilliCPUUsageOfFields
    rw [if_neg (by omega)]

/-! ## C9: the field count -/

/-- C9: on a stat content with fewer than 22 white-space-delimited tokens,
`GetMilliCPUUsage` returns usage 0, runtime 0 and the error "invalid stat file
format", whatever the uptime and the tick rate; with 22 tokens or more the
error it returns is the one of `getUptime`, never the field-count error
(`getUptime` has no such error to return). -/
theorem C9_field_count (stat : List Char) (up : F64 × Option Error) (clk : Int) :
    ((tokens stat).length < 22 →
        GetMilliCPUUsage stat up clk = (0, F64.fin false 0 (-1074), some .invalidStatFormat)) ∧
      (22 ≤ (tokens stat).length → (GetMilliCPUUsage stat up clk).2.2 = up.2) := by
  rw [GetMilliCPUUsage_eq]
  exact ⟨fun h => GetMilliCPUUsageOfFields_of_short _ _ _ h,
    fun h => GetMilliCPUUsageOfFields_error _ _ _ h⟩


/-- Instances of `C9_field_count`: three tokens give the field-count error
with usage 0 and runtime 0; a record of 24 tokens does not. -/
theorem C9_field_count_witness :
    GetMilliCPUUsage "1 (a) S".toList (F64.ofInt 10, none) 100 =
        (0, F64.fin false 0 (-1074), some .invalidStatFormat) ∧
      (GetMilliCPUUsage
          "1 (a) S 0 1 1 0 -1 4194304 100 0 0 0 100 50 0 0 20 0 1 0 200 1000 100".toList
          (F64.ofInt 10, none) 100).2.2 = none :=
  ⟨(C9_field_count "1 (a) S".toList (F64.ofInt 10, none) 100).1 (by decide),
    (C9_field_count
      "1 (a) S 0 1 1 0 -1 4194304 100 0 0 0 100 50 0 0 20 0 1 0 200 1000 100".toList
      (F64.ofInt 10, none) 100).2 (by decide)⟩

/-! ## C6: the usage and runtime formulas -/

set_option exponentiation.threshold 2000 in
set_option maxRecDepth 100000 in
/-- C6 (counterexample): with `utime = 201`, `stime = 0`, `starttime = 0`,
tick rate 100 and uptime 2.0 the process age is 200 ticks and
`floor(201 / 200 * 1000)` is 1005, but `GetMilliCPUUsage` returns the usage
1004: the `float64` quotient `201/200` is rounded below 1.005. -/
theorem C6_counterexample :
    GetMilliCPUUsage
        "1 (a) S 0 1 1 0 -1 4194304 100 0 0 0 201 0 0 0 20 0 1 0 0 1000 100".toList
        (F64.ofInt 2, none) 100 =
      (1004, F64.fin false 4526117625507348 (-51), none) ∧
    Int.floor (((201 + 0 : ℚ) / (2 * 100 - 0)) * 1000) = 1005 := by
  refine ⟨by decide, ?_⟩
  norm_num [Int.floor_eq_iff]

/-- C6 (amended): for a stat record of 22 tokens or more whose tokens 13, 14
and 21 are base-10 integers `utime`, `stime`, `starttime`, `GetMilliCPUUsage`
returns no error; the usage is `int(float64(utime+stime) / (uptime*clkTck -
float64(starttime)) * 1000)` and the runtime `float64(utime+stime) / clkTck`,
both evaluated in `float64` arithmetic, every operation rounded to nearest. -/
theorem C6_float64_formula (stat : List Char) (utime stime starttime : Int) (uptime : F64)
    (clk : Int) (hlen : 22 ≤ (tokens stat).length)
    (h13 : atoiSpec ((tokens stat).getD 13 []) = (utime, none))
    (h14 : atoiSpec ((tokens stat).getD 14 []) = (stime, none))
    (h21 : atoiSpec ((tokens stat).getD 21 []) = (starttime, none)) :
    GetMilliCPUUsage stat (uptime, none) clk =
      (usageOfTicks utime stime starttime uptime clk, runtimeOfTicks utime stime clk, none) := by
  rw [GetMilliCPUUsage_eq, GetMilliCPUUsageOfFields_of_long _ _ _ hlen, h13, h14, h21]

set_option maxRecDepth 100000 in
/-- Instance of `C6_float64_formula`: `utime = 100`, `stime = 50`,
`starttime = 200`, tick rate 100 and uptime 10.0 give usage 187 and runtime
1.5 (`6755399441055744 * 2^-52`). -/
theorem C6_float64_formula_witness :
    GetMilliCPUUsage
        "1 (a) S 0 1 1 0 -1 4194304 100 0 0 0 100 50 0 0 20 0 1 0 200 1000 100".toList
        (F64.ofInt 10, none) 100 =
      (187, F64.fin false 6755399441055744 (-52), none) :=
  (C6_float64_formula
      "1 (a) S 0 1 1 0 -1 4194304 100 0 0 0 100 50 0 0 20 0 1 0 200 1000 100".toList
      100 50 200 (F64.ofInt 10) 100 (by decide) (by decide) (by decide) (by decide)).trans
    (by decide)


/-! ## C7: non-positive process age -/

set_option maxRecDepth 100000 in
/-- C7 (counterexample): with `starttime = 200`, tick rate 100 and uptime 1.0
the process age is `1*100 - 200 = -100` ticks, and `GetMilliCPUUsage` returns
the usage -1500 with a nil error; with uptime 2.0 the age is 0 and the error
is nil as well. -/
theorem C7_counterexample :
    GetMilliCPUUsage
        "1 (a) S 0 1 1 0 -1 4194304 100 0 0 0 100 50 0 0 20 0 1 0 200 1000 100".toList
        (F64.ofInt 1, none) 100 =
      (-1500, F64.fin false 6755399441055744 (-52), none) ∧
    F64.sub (F64.mul (F64.ofInt 1) (F64.ofInt 100)) (F64.ofInt 200) = F64.ofInt (-100) ∧
    (GetMilliCPUUsage
        "1 (a) S 0 1 1 0 -1 4194304 100 0 0 0 100 50 0 0 20 0 1 0 200 1000 100".toList
        (F64.ofInt 2, none) 100).2.2 = none ∧
    F64.sub (F64.mul (F64.ofInt 2) (F64.ofInt 100)) (F64.ofInt 200) = F64.ofInt 0 := by
  decide

/-- C7 (amended): `GetMilliCPUUsage` has no guard on the process age: for every
stat record of 22 tokens or more and every uptime that `getUptime` read without
error it returns a nil error, whatever the sign of
`uptime*clkTck - starttime`, and the usage and runtime of the `float64`
formulas. -/
theorem C7_no_age_guard (stat : List Char) (uptime : F64) (clk : Int)
    (hlen : 22 ≤ (tokens stat).length) :
    (GetMilliCPUUsage stat (uptime, none) clk).2.2 = none ∧
      (GetMilliCPUUsage stat (uptime, none) clk).1 =
        usageOfTicks (atoiSpec ((tokens stat).getD 13 [])).1
          (atoiSpec ((tokens stat).getD 14 [])).1 (atoiSpec ((tokens stat).getD 21 [])).1
          uptime clk := by
  rw [GetMilliCPUUsage_eq, GetMilliCPUUsageOfFields_of_long _ _ _ hlen]
  exact ⟨rfl, rfl⟩

set_option maxRecDepth 100000 in
/-- Instance of `C7_no_age_guard` at a negative process age. -/
theorem C7_no_age_guard_witness :
    22 ≤ (tokens
        "1 (a) S 0 1 1 0 -1 4194304 100 0 0 0 100 50 0 0 20 0 1 0 200 1000 100".toList).length ∧
    (GetMilliCPUUsage
        "1 (a) S 0 1 1 0 -1 4194304 100 0 0 0 100 50 0 0 20 0 1 0 200 1000 100".toList
        (F64.ofInt 1, none) 100).2.2 = none :=
  ⟨by decide,
    (C7_no_age_guard
      "1 (a) S 0 1 1 0 -1 4194304 100 0 0 0 100 50 0 0 20 0 1 0 200 1000 100".toList
      (F64.ofInt 1) 100 (by decide)).1⟩


/-! ## C8: tick fields that are not integers -/

theorem atoiSpec_fst_of_syntaxErr (t : List Char) (h : (atoiSpec t).2 = some .syntaxErr) :
    (atoiSpec t).1 = 0 := by
  unfold atoiSpec decimalBody at h ⊢
  simp only at h ⊢
  split
  · rename_i h1; rw [if_pos h1] at h; simp at h
  · rename_i h1
    rw [if_neg h1] at h
    split
    · rfl
    · rename_i h2
      rw [if_neg h2] at h
      split
      · rename_i h3; rw [if_pos h3] at h; simp at h
      · rename_i h3; rw [if_neg h3] at h; simp at h

theorem atoiSpec_fst_of_rangeErr (t : List Char) (h : (atoiSpec t).2 = some .rangeErr) :
    (atoiSpec t).1 = nearestBound t := by
  unfold atoiSpec decimalBody at h ⊢
  unfold nearestBound
  simp only at h ⊢
  split
  · rfl
  · rename_i h1
    rw [if_neg h1] at h
    split
    · rename_i h2; rw [if_pos h2] at h; simp at h
    · rename_i h2
      rw [if_neg h2] at h
      split
      · rfl
      · rename_i h3; rw [if_neg h3] at h; simp at h

theorem atoiSpec_fst_Itoa (n : Int) (h1 : -(2 ^ 63 : Int) ≤ n) (h2 : n < 2 ^ 63) :
    (atoiSpec (Itoa n)).1 = n := by
  have := Atoi_Itoa n h1 h2
  rw [Atoi_eq_atoiSpec] at this
  exact (Prod.mk.inj this).1

/-- The result of `GetMilliCPUUsage` on 22 fields or more depends on the
fields only through the values `strconv.ParseInt` returns for the fields 13,
14 and 21. -/
theorem GetMilliCPUUsageOfFields_congr (f g : List (List Char)) (up : F64 × Option Error)
    (clk : Int) (hf : 22 ≤ f.length) (hg : 22 ≤ g.length)
    (h13 : (atoiSpec (f.getD 13 [])).1 = (atoiSpec (g.getD 13 [])).1)
    (h14 : (atoiSpec (f.getD 14 [])).1 = (atoiSpec (g.getD 14 [])).1)
    (h21 : (atoiSpec (f.getD 21 [])).1 = (atoiSpec (g.getD 21 [])).1) :
    GetMilliCPUUsageOfFields f up clk = GetMilliCPUUsageOfFields g up clk := by
  obtain ⟨u, e⟩ := up
  cases e with
  | none =>
    rw [GetMilliCPUUsageOfFields_of_long _ _ _ hf, GetMilliCPUUsageOfFields_of_long _ _ _ hg,
      h13, h14, h21]
  | some err =>
    unfold GetMilliCPUUsageOfFields
    rw [if_neg (by omega), if_neg (by omega)]

theorem getD_set (f : List (List Char)) (i j : Nat) (x : List Char) (hi : i < f.length) :
    (f.set i x).getD j [] = if i = j then x else f.getD j [] := by
  simp only [List.getD_eq_getElem?_getD, List.getElem?_set]
  by_cases h : i = j
  · subst h; simp [hi]
  · simp [h]

/-- C8 (amended): a token 13, 14 or 21 that is not a base-10 integer is not
reported.  For a stat record of 22 tokens or more, the error `GetMilliCPUUsage`
returns is the one of `getUptime`, and the result is the one of the record in
which the token is replaced by `0` when it is a syntax error, and by the
nearest 64-bit bound (`9223372036854775807`, or `-9223372036854775808` after
a minus sign) when it is out of range. -/
theorem C8_bad_tick_not_reported (fields : List (List Char)) (t : List Char) (i : Nat)
    (up : F64 × Option Error) (clk : Int)
    (hi : i = 13 ∨ i = 14 ∨ i = 21) (hlen : 22 ≤ fields.length)
    (hbad : (atoiSpec t).2 ≠ none) :
    (GetMilliCPUUsageOfFields (fields.set i t) up clk).2.2 = up.2 ∧
      GetMilliCPUUsageOfFields (fields.set i t) up clk =
        GetMilliCPUUsageOfFields
          (fields.set i
            (Itoa (if (atoiSpec t).2 = some .syntaxErr then 0 else nearestBound t)))
          up clk := by
  have hilt : i < fields.length := by omega
  have hv : (atoiSpec t).1 =
      (atoiSpec (Itoa (if (atoiSpec t).2 = some .syntaxErr then 0 else nearestBound t))).1 := by
    by_cases hs : (atoiSpec t).2 = some .syntaxErr
    · rw [if_pos hs, atoiSpec_fst_of_syntaxErr t hs, atoiSpec_fst_Itoa 0 (by norm_num) (by norm_num)]
    · rw [if_neg hs]
      have hr : (atoiSpec t).2 = some .rangeErr := by
        cases h : (atoiSpec t).2 with
        | none => exact absurd h hbad
        | some k =>
          cases k with
          | syntaxErr => exact absurd h hs
          | rangeErr => rfl
      rw [atoiSpec_fst_of_rangeErr t hr]
      have hb : -(2 ^ 63 : Int) ≤ nearestBound t ∧ nearestBound t < 2 ^ 63 := by
        unfold nearestBound
        split <;> constructor <;> norm_num
      rw [atoiSpec_fst_Itoa _ hb.1 hb.2]
  refine ⟨GetMilliCPUUsageOfFields_error _ _ _ (by rw [List.length_set]; exact hlen), ?_⟩
  apply GetMilliCPUUsageOfFields_congr _ _ _ _ (by rw [List.length_set]; exact hlen)
    (by rw [List.length_set]; exact hlen)
  · rw [getD_set _ _ _ _ hilt, getD_set _ _ _ _ hilt]
    split
    · exact hv
    · rfl
  · rw [getD_set _ _ _ _ hilt, getD_set _ _ _ _ hilt]
    split
    · exact hv
    · rfl
  · rw [getD_set _ _ _ _ hilt, getD_set _ _ _ _ hilt]
    split
    · exact hv
    · rfl


set_option maxRecDepth 100000 in
/-- C8 (counterexample): a stat record of 24 tokens whose token 13 is `abc`,
which is not a base-10 integer: `GetMilliCPUUsage` returns a nil error, the
usage 62 and the runtime 0.5, those of `utime = 0`. -/
theorem C8_counterexample :
    GetMilliCPUUsage
        "1 (a) S 0 1 1 0 -1 4194304 100 0 0 0 abc 50 0 0 20 0 1 0 200 1000 100".toList
        (F64.ofInt 10, none) 100 =
      (62, F64.fin false 4503599627370496 (-53), none) ∧
    (tokens
        "1 (a) S 0 1 1 0 -1 4194304 100 0 0 0 abc 50 0 0 20 0 1 0 200 1000 100".toList).getD
        13 [] = "abc".toList ∧
    ParseInt "abc".toList 64 = (0, some .syntaxErr) := by
  decide

set_option maxRecDepth 100000 in
/-- Instance of `C8_bad_tick_not_reported`: the token `abc` in place 13 gives
the result of the token `0`, without error. -/
theorem C8_bad_tick_not_reported_witness :
    (atoiSpec "abc".toList).2 ≠ none ∧
    (GetMilliCPUUsageOfFields
        ((tokens
          "1 (a) S 0 1 1 0 -1 4194304 100 0 0 0 7 50 0 0 20 0 1 0 200 1000 100".toList).set
          13 "abc".toList)
        (F64.ofInt 10, none) 100).2.2 = none :=
  ⟨by decide,
    (C8_bad_tick_not_reported
      (tokens "1 (a) S 0 1 1 0 -1 4194304 100 0 0 0 7 50 0 0 20 0 1 0 200 1000 100".toList)
      "abc".toList 13 (F64.ofInt 10, none) 100 (Or.inl rfl) (by decide) (by decide)).1⟩


/-! ## C11: `getChildPIDs` on a rendered list -/

theorem FieldsAux_append_token (t : List Char) (h : ∀ c ∈ t, isSpace c = false) :
    ∀ cur rest, FieldsAux cur (t ++ rest) = FieldsAux (t.reverse ++ cur) rest := by
  induction t with
  | nil => intro cur rest; rfl
  | cons c cs ih =>
    intro cur rest
    have hc := h c (List.mem_cons_self _ _)
    rw [List.cons_append, FieldsAux]
    simp only [hc, Bool.false_eq_true, if_false]
    rw [ih (fun x hx => h x (List.mem_cons_of_mem _ hx))]
    simp

theorem Fields_joinSpaces (ts : List (List Char))
    (hne : ∀ t ∈ ts, t ≠ []) (hsp : ∀ t ∈ ts, ∀ c ∈ t, isSpace c = false) :
    Fields (joinSpaces ts ++ ['\n']) = ts := by
  unfold Fields
  induction ts with
  | nil => rfl
  | cons t rest ih =>
    have ht := hne t (List.mem_cons_self _ _)
    have hts := hsp t (List.mem_cons_self _ _)
    have hrev : t.reverse ≠ [] := by simpa using ht
    cases rest with
    | nil =>
      simp only [joinSpaces]
      rw [FieldsAux_append_token t hts]
      simp only [List.append_nil, FieldsAux]
      have : isSpace '\n' = true := by decide
      simp [this, hrev]
    | cons u rest' =>
      simp only [joinSpaces]
      rw [List.append_assoc, FieldsAux_append_token t hts]
      simp only [List.append_nil, List.cons_append, FieldsAux]
      have : isSpace ' ' = true := by decide
      simp only [this, if_true, if_neg hrev, List.reverse_reverse]
      have ih' := ih (fun x hx => hne x (List.mem_cons_of_mem _ hx))
        (fun x hx => hsp x (List.mem_cons_of_mem _ hx))
      exact congrArg (List.cons t) ih'

theorem decimalValue_Itoa (n : Int) (h1 : -(2 ^ 63 : Int) ≤ n) (h2 : n < 2 ^ 63) :
    decimalValue (Itoa n) = some n := by
  have := Atoi_Itoa n h1 h2
  rw [Atoi_eq_atoiSpec] at this
  have h' := Prod.mk.inj this
  have he : (atoiSpec (Itoa n)).2 = none := by
    cases h : (atoiSpec (Itoa n)).2 with
    | none => rfl
    | some e => rw [h] at h'; simp at h'
  simp [decimalValue, he, h'.1]

/-- C11: for every list `L` of 64-bit integers, `getChildPIDs` on the content
made of the decimal renderings of `L` separated by spaces and ended by a
newline returns `L` itself, same length and same order, without error; the
empty content gives the empty list without error. -/
theorem C11_getChildPIDs_roundtrip (L : List Int)
    (h : ∀ n ∈ L, -(2 ^ 63 : Int) ≤ n ∧ n < 2 ^ 63) :
    getChildPIDs (childrenContent L) = (some L, none) ∧
      getChildPIDs [] = (some [], none) := by
  refine ⟨?_, by decide⟩
  unfold getChildPIDs childrenContent
  rw [Fields_joinSpaces]
  · rw [getChildPIDsLoop_of_all]
    · have : (L.map Itoa).filterMap decimalValue = L := by
        induction L with
        | nil => rfl
        | cons a l ih =>
          have ha := h a (List.mem_cons_self _ _)
          rw [List.map_cons, List.filterMap_cons, decimalValue_Itoa a ha.1 ha.2]
          simp only
          rw [ih (fun x hx => h x (List.mem_cons_of_mem _ hx))]
      simp [this]
    · intro t ht
      obtain ⟨n, hn, rfl⟩ := List.mem_map.mp ht
      have hn' := h n hn
      simp [decimalValue_Itoa n hn'.1 hn'.2]
  · intro t ht
    obtain ⟨n, _, rfl⟩ := List.mem_map.mp ht
    exact Itoa_ne_nil n
  · intro t ht c hc
    obtain ⟨n, _, rfl⟩ := List.mem_map.mp ht
    exact not_isSpace_of_mem_Itoa n c hc

/-- Instance of `C11_getChildPIDs_roundtrip`: the content `101 102 103` with
its newline gives `[101, 102, 103]`. -/
theorem C11_getChildPIDs_roundtrip_witness :
    childrenContent [101, 102, 103] = "101 102 103\n".toList ∧
      getChildPIDs "101 102 103\n".toList = (some [101, 102, 103], none) := by
  have hc : childrenContent [101, 102, 103] = "101 102 103\n".toList := by
    norm_num [childrenContent, joinSpaces, Itoa, formatNat, digitChar]
  refine ⟨hc, ?_⟩
  rw [← hc]
  exact (C11_getChildPIDs_roundtrip [101, 102, 103] (by
    intro n hn
    simp only [List.mem_cons, List.mem_singleton, List.not_mem_nil, or_false] at hn
    rcases hn with rfl | rfl | rfl <;> norm_num)).1


/-! ## C12: the sign of `FDSize` and `Threads` -/

theorem atoiSpec_nonneg_of_no_minus (v : List Char) (h : hasMinus v = false) :
    0 ≤ (atoiSpec v).1 := by
  unfold atoiSpec decimalBody
  rw [h]
  simp only [Bool.false_eq_true, if_false]
  split
  · norm_num
  · split
    · exact le_refl _
    · split
      · norm_num
      · exact Int.ofNat_nonneg _

/-- C12 (counterexample): the contents `FDSize:\t-5` and `Threads:\t-1` give
the negative fields `FDSize = -5` and `Threads = -1`. -/
theorem C12_counterexample :
    ParseProcStatus "FDSize:\t-5".toList = (some { FDSize := -5 }, none) ∧
      ParseProcStatus "Threads:\t-1".toList = (some { Threads := -1 }, none) := by
  decide

/-- C12 (amended): a scalar integer field of the returned record, `FDSize` and
`Threads` in particular, is greater than or equal to 0 whenever the value of
the last line with its key does not start with a minus sign, and so whenever
the content has no such line; the parser itself does not check the sign. -/
theorem C12_nonneg_without_minus (K : ScalarKey) (c : List Char) (st : ProcStatus)
    (hret : ParseProcStatus c = (some st, none))
    (hsign : ∀ l, lastWithKey K.name (statusLines c) = some l → hasMinus (lineValue l) = false) :
    0 ≤ K.get st := by
  rw [ParseProcStatus_scalar K c st hret]
  cases h : lastWithKey K.name (statusLines c) with
  | none => exact le_refl _
  | some l =>
    simp only
    rw [Atoi_eq_atoiSpec]
    exact atoiSpec_nonneg_of_no_minus _ (hsign l h)

/-- Instances of `C12_nonneg_without_minus` for `FDSize` and `Threads`. -/
theorem C12_nonneg_without_minus_witness :
    ParseProcStatus "FDSize:\t64\nThreads:\t3".toList =
        (some { FDSize := 64, Threads := 3 }, none) ∧
      0 ≤ ScalarKey.FDSize.get { FDSize := 64, Threads := 3 } ∧
      0 ≤ ScalarKey.Threads.get { FDSize := 64, Threads := 3 } :=
  ⟨by decide,
    C12_nonneg_without_minus .FDSize "FDSize:\t64\nThreads:\t3".toList
      { FDSize := 64, Threads := 3 } (by decide) (by
        intro l hl
        have : lastWithKey ScalarKey.FDSize.name (statusLines "FDSize:\t64\nThreads:\t3".toList) =
            some "FDSize:\t64".toList := by decide
        rw [this] at hl
        cases hl
        decide),
    C12_nonneg_without_minus .Threads "FDSize:\t64\nThreads:\t3".toList
      { FDSize := 64, Threads := 3 } (by decide) (by
        intro l hl
        have : lastWithKey ScalarKey.Threads.name (statusLines "FDSize:\t64\nThreads:\t3".toList) =
            some "Threads:\t3".toList := by decide
        rw [this] at hl
        cases hl
        decide)⟩


/-! ## The other fields of the record -/

/-- Effect of one line on the field `Umask`. -/
theorem processLine_Umask (st : ProcStatus) (l : List Char) :
    (processLine st l).Umask =
      if lineKey l = some ['U', 'm', 'a', 's', 'k'] then lineValue l else st.Umask := by
  unfold processLine lineKey lineValue lineText
  cases h : SplitN2 l with
  | none => simp
  | some p =>
    obtain ⟨p0, p1⟩ := p
    simp only [Option.map_some', Option.some.injEq]
    generalize TrimSpace p0 = key
    generalize TrimSpace (ReplaceKB (TrimSpace p1)) = v
    by_cases hk : key = ['U', 'm', 'a', 's', 'k']
    · subst hk
      rfl
    · rw [if_neg hk]
      cases hf : FindStringSubmatch v <;>
      simp only [apply_ite ProcStatus.Umask, if_neg hk, ite_self]

/-- Effect of one line on the field `Uid`. -/
theorem processLine_Uid (st : ProcStatus) (l : List Char) :
    (processLine st l).Uid =
      if lineKey l = some ['U', 'i', 'd'] then parseToIntArray (lineValue l) else st.Uid := by
  unfold processLine lineKey lineValue lineText
  cases h : SplitN2 l with
  | none => simp
  | some p =>
    obtain ⟨p0, p1⟩ := p
    simp only [Option.map_some', Option.some.injEq]
    generalize TrimSpace p0 = key
    generalize TrimSpace (ReplaceKB (TrimSpace p1)) = v
    by_cases hk : key = ['U', 'i', 'd']
    · subst hk
      rfl
    · rw [if_neg hk]
      cases hf : FindStringSubmatch v <;>
      simp only [apply_ite ProcStatus.Uid, if_neg hk, ite_self]

/-- Effect of one line on the field `Gid`. -/
theorem processLine_Gid (st : ProcStatus) (l : List Char) :
    (processLine st l).Gid =
      if lineKey l = some ['G', 'i', 'd'] then parseToIntArray (lineValue l) else st.Gid := by
  unfold processLine lineKey lineValue lineText
  cases h : SplitN2 l with
  | none => simp
  | some p =>
    obtain ⟨p0, p1⟩ := p
    simp only [Option.map_some', Option.some.injEq]
    generalize TrimSpace p0 = key
    generalize TrimSpace (ReplaceKB (TrimSpace p1)) = v
    by_cases hk : key = ['G', 'i', 'd']
    · subst hk
      rfl
    · rw [if_neg hk]
      cases hf : FindStringSubmatch v <;>
      simp only [apply_ite ProcStatus.Gid, if_neg hk, ite_self]

/-- Effect of one line on the field `Groups`. -/
theorem processLine_Groups (st : ProcStatus) (l : List Char) :
    (processLine st l).Groups =
      if lineKey l = some ['G', 'r', 'o', 'u', 'p', 's'] then parseToIntArray (lineValue l)
      else st.Groups := by
  unfold processLine lineKey lineValue lineText
  cases h : SplitN2 l with
  | none => simp
  | some p =>
    obtain ⟨p0, p1⟩ := p
    simp only [Option.map_some', Option.some.injEq]
    generalize TrimSpace p0 = key
    generalize TrimSpace (ReplaceKB (TrimSpace p1)) = v
    by_cases hk : key = ['G', 'r', 'o', 'u', 'p', 's']
    · subst hk
      rfl
    · rw [if_neg hk]
      cases hf : FindStringSubmatch v <;>
      simp only [apply_ite ProcStatus.Groups, if_neg hk, ite_self]

/-- A line without colon, or with a key that is not recognized, leaves the
record as it is. -/
theorem processLine_of_unrecognized (st : ProcStatus) (l : List Char)
    (h : ∀ k ∈ recognizedKeys, lineKey l ≠ some k) : processLine st l = st := by
  unfold processLine
  unfold lineKey at h
  cases hs : SplitN2 l with
  | none => rfl
  | some p =>
    obtain ⟨p0, p1⟩ := p
    rw [hs] at h
    simp only [Option.map_some', ne_eq, Option.some.injEq] at h
    simp only
    generalize TrimSpace p0 = key at h
    have hk : ∀ k ∈ recognizedKeys, ¬ key = k := h
    simp only [recognizedKeys, List.forall_mem_cons, List.not_mem_nil, false_implies,
      implies_true, and_true] at hk
    obtain ⟨h1, h2, h3, h4, h5, h6, h7, h8, h9, h10, h11, h12, h13, h14, h15, h16, h17,
      h18, h19, h20, h21, h22, h23, h24, h25, h26, h27, h28⟩ := hk
    simp only [if_neg h1, if_neg h2, if_neg h3, if_neg h4, if_neg h5, if_neg h6, if_neg h7,
      if_neg h8, if_neg h9, if_neg h10, if_neg h11, if_neg h12, if_neg h13, if_neg h14,
      if_neg h15, if_neg h16, if_neg h17, if_neg h18, if_neg h19, if_neg h20, if_neg h21,
      if_neg h22, if_neg h23, if_neg h24, if_neg h25, if_neg h26, if_neg h27, if_neg h28]

/-- A field that every line updates by `upd` when the line has the key `key`,
and leaves alone otherwise, is after the loop the fold of `upd` over the
lines with that key. -/
theorem foldl_processLine_field {α : Type} (get : ProcStatus → α) (key : List Char)
    (upd : List Char → α → α)
    (h : ∀ st l, get (processLine st l) = if lineKey l = some key then upd l (get st) else get st)
    (ls : List (List Char)) (st : ProcStatus) :
    get (ls.foldl processLine st) =
      (ls.filter fun l => lineKey l = some key).foldl (fun a l => upd l a) (get st) := by
  induction ls using List.reverseRecOn with
  | nil => rfl
  | append_singleton ls l ih =>
    rw [List.foldl_append, List.filter_append, List.foldl_append]
    simp only [List.foldl_cons, List.foldl_nil, h, ih]
    by_cases hk : lineKey l = some key
    · simp [List.filter, hk]
    · simp [List.filter, hk]

/-- When the update does not look at the old value, the last line with the key
decides. -/
theorem foldl_const_update {α : Type} (f : List Char → α) (ls : List (List Char)) (a : α) :
    ls.foldl (fun _ l => f l) a = (ls.getLast?.map f).getD a := by
  induction ls using List.reverseRecOn with
  | nil => rfl
  | append_singleton ls l _ => simp [List.foldl_append]


/-! ## Lines of a content -/

theorem rawLinesAux_append_newline (l : List Char) (h : ∀ c ∈ l, c ≠ '\n') :
    ∀ cur rest, rawLinesAux cur (l ++ '\n' :: rest) =
      (cur.reverse ++ l) :: rawLinesAux [] rest := by
  induction l with
  | nil => intro cur rest; simp [rawLinesAux]
  | cons c cs ih =>
    intro cur rest
    have hc := h c (List.mem_cons_self _ _)
    rw [List.cons_append, rawLinesAux, if_neg hc,
      ih (fun x hx => h x (List.mem_cons_of_mem _ hx))]
    simp

/-- A line followed by a newline is the first token of the scanner. -/
theorem rawLines_append_newline (l rest : List Char) (h : ∀ c ∈ l, c ≠ '\n') :
    rawLines (l ++ '\n' :: rest) = l :: rawLines rest := by
  unfold rawLines
  rw [rawLinesAux_append_newline l h]
  rfl

theorem rawLinesAux_of_no_newline (l : List Char) (h : ∀ c ∈ l, c ≠ '\n') :
    ∀ cur, rawLinesAux cur l = if cur.reverse ++ l = [] then [] else [cur.reverse ++ l] := by
  induction l with
  | nil =>
    intro cur
    by_cases hc : cur = []
    · subst hc; rfl
    · simp [rawLinesAux, hc]
  | cons c cs ih =>
    intro cur
    have hc := h c (List.mem_cons_self _ _)
    rw [rawLinesAux, if_neg hc, ih (fun x hx => h x (List.mem_cons_of_mem _ hx))]
    simp

/-- A non-empty content without newline is one token. -/
theorem rawLines_of_no_newline (l : List Char) (h : ∀ c ∈ l, c ≠ '\n') (hne : l ≠ []) :
    rawLines l = [l] := by
  unfold rawLines
  rw [rawLinesAux_of_no_newline l h]
  simp [hne]

theorem rawLinesAux_append_of_newline (A B : List Char) :
    ∀ cur, rawLinesAux cur (A ++ '\n' :: B) =
      rawLinesAux cur (A ++ ['\n']) ++ rawLinesAux [] B := by
  induction A with
  | nil => intro cur; simp [rawLinesAux]
  | cons c cs ih =>
    intro cur
    rw [List.cons_append, List.cons_append, rawLinesAux, rawLinesAux]
    by_cases hc : c = '\n'
    · rw [if_pos hc, if_pos hc, ih]
      rfl
    · rw [if_neg hc, if_neg hc, ih]

/-- The tokens of two contents put together, when the first one is empty or
ends with a newline. -/
theorem rawLines_append (A B : List Char) (h : A = [] ∨ A.getLast? = some '\n') :
    rawLines (A ++ B) = rawLines A ++ rawLines B := by
  rcases h with h | h
  · subst h; rfl
  · obtain ⟨A', rfl⟩ := List.getLast?_eq_some_iff.mp h
    unfold rawLines
    rw [List.append_assoc]
    exact rawLinesAux_append_of_newline A' B []

theorem scanLoop_append (xs ys : List (List Char)) : ∀ st,
    scanLoop st (xs ++ ys) =
      match scanLoop st xs with
      | (s, some e) => (s, some e)
      | (s, none) => scanLoop s ys := by
  induction xs with
  | nil => intro st; rfl
  | cons x xs ih =>
    intro st
    rw [List.cons_append, scanLoop, scanLoop]
    by_cases hx : byteLen x ≥ MaxScanTokenSize
    · rw [if_pos hx, if_pos hx]
    · rw [if_neg hx, if_neg hx, ih]

theorem byteLen_replicate (n : Nat) (c : Char) :
    byteLen (List.replicate n c) = n * c.utf8Size := by
  induction n with
  | zero => simp [byteLen]
  | succ n ih =>
    simp only [byteLen, List.replicate_succ, List.map_cons, List.sum_cons] at ih ⊢
    rw [ih]
    ring

theorem lineKey_of_no_colon (l : List Char) (h : ∀ c ∈ l, c ≠ ':') : lineKey l = none := by
  unfold lineKey
  have : SplitN2 l = none := by
    induction l with
    | nil => rfl
    | cons c cs ih =>
      rw [SplitN2, if_neg (h c (List.mem_cons_self _ _)),
        ih (fun x hx => h x (List.mem_cons_of_mem _ hx))]
  rw [this]
  rfl

/-- A content made of one line of `MaxScanTokenSize` bytes or more, without
newline: the scanner fails and the parser returns no record. -/
theorem ParseProcStatus_of_long_line (n : Nat) (c : Char) (h1 : c.utf8Size = 1)
    (hc : c ≠ '\n') (hn : MaxScanTokenSize ≤ n) :
    ParseProcStatus (List.replicate n c) = (none, some .tooLong) := by
  have hpos : 0 < MaxScanTokenSize := by decide
  have hne : List.replicate n c ≠ [] := by
    cases n with
    | zero => omega
    | succ m => simp [List.replicate_succ]
  have hnl : ∀ x ∈ List.replicate n c, x ≠ '\n' := by
    intro x hx
    rw [List.eq_of_mem_replicate hx]
    exact hc
  unfold ParseProcStatus
  rw [rawLines_of_no_newline _ hnl hne, scanLoop,
    if_pos (by rw [byteLen_replicate, h1]; omega)]


/-! ## Absent keys -/

/-- A field that only the lines with the key `key` touch keeps its value
through a loop over lines none of which has that key. -/
theorem foldl_processLine_absent {α : Type} (get : ProcStatus → α) (key : List Char)
    (upd : List Char → α → α)
    (h : ∀ st l, get (processLine st l) = if lineKey l = some key then upd l (get st) else get st)
    (ls : List (List Char)) (st : ProcStatus) (habs : ∀ l ∈ ls, lineKey l ≠ some key) :
    get (ls.foldl processLine st) = get st := by
  rw [foldl_processLine_field get key upd h]
  have : (ls.filter fun l => lineKey l = some key) = [] := by
    rw [List.filter_eq_nil_iff]
    intro l hl
    simpa using habs l hl
  rw [this]
  rfl

/-- The loop body leaves alone every field whose key the line does not
have. -/
theorem StatusField.isZero_foldl (F : StatusField) (ls : List (List Char)) (st : ProcStatus)
    (habs : ∀ l ∈ ls, lineKey l ≠ some F.key) :
    F.isZero (ls.foldl processLine st) = F.isZero st := by
  cases F with
  | Name =>
    simp only [StatusField.isZero]
    rw [foldl_processLine_absent ProcStatus.Name _ (fun l _ => lineValue l) processLine_Name
      ls st habs]
  | Umask =>
    simp only [StatusField.isZero]
    rw [foldl_processLine_absent ProcStatus.Umask _ (fun l _ => lineValue l) processLine_Umask
      ls st habs]
  | State =>
    simp only [StatusField.isZero]
    rw [foldl_processLine_absent ProcStatus.State _
      (fun l a => (FindStringSubmatch (lineValue l)).getD a) processLine_State ls st habs]
  | Uid =>
    simp only [StatusField.isZero]
    rw [foldl_processLine_absent ProcStatus.Uid _ (fun l _ => parseToIntArray (lineValue l))
      processLine_Uid ls st habs]
  | Gid =>
    simp only [StatusField.isZero]
    rw [foldl_processLine_absent ProcStatus.Gid _ (fun l _ => parseToIntArray (lineValue l))
      processLine_Gid ls st habs]
  | Groups =>
    simp only [StatusField.isZero]
    rw [foldl_processLine_absent ProcStatus.Groups _ (fun l _ => parseToIntArray (lineValue l))
      processLine_Groups ls st habs]
  | scalar K =>
    simp only [StatusField.isZero]
    rw [foldl_processLine_absent K.get _ (fun l _ => (Atoi (lineValue l)).1)
      (processLine_scalar K) ls st habs]

theorem StatusField.isZero_default (F : StatusField) : F.isZero {} = true := by
  cases F with
  | scalar K => cases K <;> rfl
  | _ => rfl

theorem mem_of_mem_dropCR (c : Char) (l : List Char) (h : c ∈ dropCR l) : c ∈ l := by
  unfold dropCR at h
  split at h
  · rename_i d rest hrev
    split at h
    · have : c ∈ l.reverse := by
        rw [hrev]
        exact List.mem_cons_of_mem _ (List.mem_reverse.mp h)
      exact List.mem_reverse.mp this
    · exact h
  · exact h

theorem mem_of_mem_rawLinesAux (s : List Char) : ∀ (cur r : List Char),
    r ∈ rawLinesAux cur s → ∀ c ∈ r, c ∈ cur ∨ c ∈ s := by
  induction s with
  | nil =>
    intro cur r hr c hc
    unfold rawLinesAux at hr
    split at hr
    · simp at hr
    · rw [List.mem_singleton] at hr
      subst hr
      exact Or.inl (List.mem_reverse.mp hc)
  | cons x xs ih =>
    intro cur r hr c hc
    unfold rawLinesAux at hr
    split at hr
    · rcases List.mem_cons.mp hr with h | h
      · subst h
        exact Or.inl (List.mem_reverse.mp hc)
      · rcases ih [] r h c hc with h' | h'
        · simp at h'
        · exact Or.inr (List.mem_cons_of_mem _ h')
    · rcases ih (x :: cur) r hr c hc with h' | h'
      · rcases List.mem_cons.mp h' with h2 | h2
        · subst h2
          exact Or.inr (List.mem_cons_self _ _)
        · exact Or.inl h2
      · exact Or.inr (List.mem_cons_of_mem _ h')

/-- The characters of a line of a content are characters of the content. -/
theorem mem_of_mem_rawLines (s r : List Char) (hr : r ∈ rawLines s) (c : Char) (hc : c ∈ r) :
    c ∈ s := by
  rcases mem_of_mem_rawLinesAux s [] r hr c hc with h | h
  · simp at h
  · exact h

/-! ## C13: absent keys -/

/-- C13 (counterexample): the content made of one line of 65536 letters `x`
has no line with any key, since it has no colon, and `ParseProcStatus` fails
on it with the scanner's error instead of returning a record. -/
theorem C13_counterexample :
    (∀ F : StatusField, ∀ l ∈ statusLines (List.replicate 65536 'x'),
      lineKey l ≠ some F.key) ∧
    ParseProcStatus (List.replicate 65536 'x') = (none, some .tooLong) := by
  refine ⟨?_, ParseProcStatus_of_long_line 65536 'x' (by decide) (by decide) (by decide)⟩
  intro F l hl
  have hcolon : ∀ c ∈ l, c ≠ ':' := by
    intro c hc
    obtain ⟨r, hr, rfl⟩ := List.mem_map.mp hl
    have hsub : c ∈ List.replicate 65536 'x' :=
      mem_of_mem_rawLines _ r hr c (mem_of_mem_dropCR c r hc)
    rw [List.eq_of_mem_replicate hsub]
    decide
  rw [lineKey_of_no_colon l hcolon]
  exact fun h => Option.noConfusion h

/-- C13 (amended): when every line of a status content is shorter than 65536
bytes, `ParseProcStatus` returns a record without error, and every field whose
key no line of the content has before its first colon (after trimming) has its
zero value in that record: 0, the empty string or the empty sequence.  The
empty content gives the all-zero record. -/
theorem C13_absent_key_zero (c : List Char) (F : StatusField)
    (hfit : ∀ r ∈ rawLines c, byteLen r < MaxScanTokenSize)
    (habs : ∀ l ∈ statusLines c, lineKey l ≠ some F.key) :
    (∃ st, ParseProcStatus c = (some st, none) ∧ F.isZero st = true) ∧
    ParseProcStatus [] = (some {}, none) := by
  refine ⟨⟨(statusLines c).foldl processLine {}, ?_, ?_⟩, rfl⟩
  · exact (ParseProcStatus_eq_some_iff c _).mpr ⟨hfit, rfl⟩
  · rw [StatusField.isZero_foldl F _ _ habs, StatusField.isZero_default]

/-- Instances of `C13_absent_key_zero`: the content `Name:\tbash\nPid:\t42`
has no line with the key `Uid`, nor with the key `Threads`, and the record has
the empty sequence and 0 there. -/
theorem C13_absent_key_zero_witness :
    ((∀ r ∈ rawLines "Name:\tbash\nPid:\t42".toList, byteLen r < MaxScanTokenSize) ∧
      (∀ l ∈ statusLines "Name:\tbash\nPid:\t42".toList, lineKey l ≠ some StatusField.Uid.key) ∧
      ParseProcStatus "Name:\tbash\nPid:\t42".toList =
        (some { Name := "bash".toList, Pid := 42 }, none) ∧
      ((∃ st, ParseProcStatus "Name:\tbash\nPid:\t42".toList = (some st, none) ∧
          StatusField.Uid.isZero st = true) ∧
        ParseProcStatus [] = (some {}, none))) ∧
    ((∃ st, ParseProcStatus "Name:\tbash\nPid:\t42".toList = (some st, none) ∧
        (StatusField.scalar .Threads).isZero st = true) ∧
      ParseProcStatus [] = (some {}, none)) :=
  ⟨⟨by decide, by decide, by decide,
    C13_absent_key_zero "Name:\tbash\nPid:\t42".toList .Uid (by decide) (by decide)⟩,
   C13_absent_key_zero "Name:\tbash\nPid:\t42".toList (.scalar .Threads)
     (by decide) (by decide)⟩


/-! ## C14: lines without colon and lines with an unknown key -/

theorem SplitN2_append_of_no_colon (r s : List Char) (hs : ∀ c ∈ s, c ≠ ':') :
    SplitN2 (r ++ s) = (SplitN2 r).map fun p => (p.1, p.2 ++ s) := by
  induction r with
  | nil =>
    have : SplitN2 s = none := by
      induction s with
      | nil => rfl
      | cons c cs ih =>
        rw [SplitN2, if_neg (hs c (List.mem_cons_self _ _)),
          ih (fun x hx => hs x (List.mem_cons_of_mem _ hx))]
    simpa [SplitN2] using this
  | cons c cs ih =>
    rw [List.cons_append, SplitN2, SplitN2]
    by_cases hc : c = ':'
    · rw [if_pos hc, if_pos hc]
      rfl
    · rw [if_neg hc, if_neg hc, ih]
      cases SplitN2 cs with
      | none => rfl
      | some p => rfl

/-- Dropping the terminal carriage return of a line does not change its
key. -/
theorem lineKey_dropCR (l : List Char) : lineKey (dropCR l) = lineKey l := by
  unfold dropCR
  split
  · rename_i d rest hrev
    split
    · rename_i hd
      have hl : l = rest.reverse ++ ['\r'] := by
        have := congrArg List.reverse hrev
        rw [List.reverse_reverse, List.reverse_cons, hd] at this
        exact this
      rw [hl]
      unfold lineKey
      rw [SplitN2_append_of_no_colon _ ['\r'] (by
        intro c hc
        rw [List.mem_singleton] at hc
        rw [hc]
        decide)]
      cases SplitN2 rest.reverse with
      | none => rfl
      | some p => rfl
    · rfl
  · rfl

/-- A line that fits the scanner and whose key is not recognized, or that has
no colon, does not change the scanning loop. -/
theorem scanLoop_insert (xs ys : List (List Char)) (l : List Char)
    (hfit : byteLen l < MaxScanTokenSize)
    (hkey : ∀ k ∈ recognizedKeys, lineKey l ≠ some k) (st : ProcStatus) :
    scanLoop st (xs ++ l :: ys) = scanLoop st (xs ++ ys) := by
  rw [scanLoop_append, scanLoop_append]
  have hstep : ∀ s, scanLoop s (l :: ys) = scanLoop s ys := by
    intro s
    rw [scanLoop, if_neg (by omega),
      processLine_of_unrecognized s (dropCR l) (by rw [lineKey_dropCR]; exact hkey)]
  cases hx : scanLoop st xs with
  | mk s e =>
    cases e with
    | none => exact hstep s
    | some err => rfl

/-- A line that does not fit the scanner makes the scanning loop fail. -/
theorem scanLoop_insert_long (xs ys : List (List Char)) (l : List Char)
    (hlong : MaxScanTokenSize ≤ byteLen l) (st : ProcStatus) :
    (scanLoop st (xs ++ l :: ys)).2 = some .tooLong := by
  apply scanLoop_of_long
  exact ⟨l, by simp, hlong⟩

theorem ParseProcStatus_of_error (c : List Char) (e : Error)
    (h : (scanLoop {} (rawLines c)).2 = some e) : ParseProcStatus c = (none, some e) := by
  unfold ParseProcStatus
  cases hs : scanLoop {} (rawLines c) with
  | mk s e' =>
    rw [hs] at h
    simp only at h
    subst h
    rfl

/-- C14 (counterexample): the content `Pid:\t1`, one line ended by a newline,
gives the record with `Pid` 1; with a line of 65536 letters `x` put after it,
a line without colon, `ParseProcStatus` returns no record and the scanner's
error. -/
theorem C14_counterexample :
    ParseProcStatus "Pid:\t1\n".toList = (some { Pid := 1 }, none) ∧
    lineKey (List.replicate 65536 'x') = none ∧
    ParseProcStatus ("Pid:\t1\n".toList ++ List.replicate 65536 'x' ++ ['\n']) =
      (none, some .tooLong) := by
  have hx : ∀ c ∈ List.replicate 65536 'x', c ≠ '\n' ∧ c ≠ ':' := by
    intro c hc
    rw [List.eq_of_mem_replicate hc]
    decide
  refine ⟨by decide, lineKey_of_no_colon _ (fun c hc => (hx c hc).2), ?_⟩
  apply ParseProcStatus_of_error
  have h1 : rawLines ("Pid:\t1\n".toList ++ List.replicate 65536 'x' ++ ['\n']) =
      ["Pid:\t1".toList] ++ List.replicate 65536 'x' :: [] := by
    rw [List.append_assoc, rawLines_append _ _ (Or.inr (by decide)),
      rawLines_append_newline _ _ (fun c hc => (hx c hc).1)]
    rfl
  rw [h1]
  apply scanLoop_insert_long
  rw [byteLen_replicate]
  decide

/-- C14 (amended): a status content to which one line is added, at any
position among its lines, gives the same result of `ParseProcStatus`, record
and error alike, when the added line is shorter than 65536 bytes and either
has no colon or has a trimmed key that is not one of the recognized keys.
The two contents are given with the lines the scanner reads from them. -/
theorem C14_insert_ignored_line (c c' : List Char) (xs ys : List (List Char)) (l : List Char)
    (hc : rawLines c = xs ++ ys) (hc' : rawLines c' = xs ++ l :: ys)
    (hfit : byteLen l < MaxScanTokenSize)
    (hkey : ∀ k ∈ recognizedKeys, lineKey l ≠ some k) :
    ParseProcStatus c' = ParseProcStatus c := by
  unfold ParseProcStatus
  rw [hc, hc', scanLoop_insert xs ys l hfit hkey]

/-- Instances of `C14_insert_ignored_line`: the line `no colon here` and the
line `Seccomp:\t0` put between the two lines of `Name:\tbash\nPid:\t42\n`. -/
theorem C14_insert_ignored_line_witness :
    (lineKey "no colon here".toList = none ∧
      ParseProcStatus "Name:\tbash\nno colon here\nPid:\t42\n".toList =
        ParseProcStatus "Name:\tbash\nPid:\t42\n".toList) ∧
    (lineKey "Seccomp:\t0".toList = some "Seccomp".toList ∧
      ParseProcStatus "Name:\tbash\nSeccomp:\t0\nPid:\t42\n".toList =
        ParseProcStatus "Name:\tbash\nPid:\t42\n".toList) ∧
    ParseProcStatus "Name:\tbash\nPid:\t42\n".toList =
      (some { Name := "bash".toList, Pid := 42 }, none) :=
  ⟨⟨by decide,
    C14_insert_ignored_line "Name:\tbash\nPid:\t42\n".toList
      "Name:\tbash\nno colon here\nPid:\t42\n".toList
      ["Name:\tbash".toList] ["Pid:\t42".toList] "no colon here".toList
      (by decide) (by decide) (by decide) (by decide)⟩,
   ⟨by decide,
    C14_insert_ignored_line "Name:\tbash\nPid:\t42\n".toList
      "Name:\tbash\nSeccomp:\t0\nPid:\t42\n".toList
      ["Name:\tbash".toList] ["Pid:\t42".toList] "Seccomp:\t0".toList
      (by decide) (by decide) (by decide) (by decide)⟩,
   by decide⟩


/-! ## C15: `getUptime` -/

theorem FieldsAux_eq_nil_iff (s : List Char) : ∀ cur : List Char,
    FieldsAux cur s = [] ↔ cur = [] ∧ ∀ c ∈ s, isSpace c = true := by
  induction s with
  | nil =>
    intro cur
    unfold FieldsAux
    by_cases h : cur = []
    · simp [h]
    · simp [h]
  | cons x xs ih =>
    intro cur
    unfold FieldsAux
    by_cases hx : isSpace x = true
    · by_cases h : cur = []
      · simp [hx, h, ih]
      · simp [hx, h]
    · rw [if_neg hx, ih]
      simp [hx]

/-- A text has no white-space-delimited token exactly when it is empty or all
white space. -/
theorem tokens_eq_nil_iff (s : List Char) : tokens s = [] ↔ ∀ c ∈ s, isSpace c = true := by
  rw [← Fields_eq_tokens]
  unfold Fields
  rw [FieldsAux_eq_nil_iff]
  simp

/-- C15: `getUptime` fails with the error `invalid uptime format` when the
content has no white-space-delimited token, which is the case exactly when the
content is empty or all white space; otherwise its result, value and error, is
the result of `strconv.ParseFloat` on the first token alone: it fails when the
first token does not parse, succeeds with its value when it does, and the
later tokens play no part. -/
theorem C15_getUptime (ParseFloat : List Char → F64 × Option Error) (data : List Char) :
    getUptime ParseFloat data =
      (match tokens data with
       | [] => (F64.ofInt 0, some .invalidUptimeFormat)
       | t :: _ => ParseFloat t) ∧
    (tokens data = [] ↔ ∀ c ∈ data, isSpace c = true) := by
  refine ⟨?_, tokens_eq_nil_iff data⟩
  unfold getUptime
  rw [Fields_eq_tokens]
  cases tokens data with
  | nil => rfl
  | cons t rest =>
    simp only [List.length_cons]
    rw [if_neg (by omega)]
    rfl

/-! ## C16: the first colon -/

theorem TrimSpace_head (s : List Char) (a : Char) (h : (TrimSpace s).head? = some a) :
    isSpace a = false := by
  unfold TrimSpace at h
  have hsplit := List.takeWhile_append_dropWhile isSpace (s.dropWhile isSpace).reverse
  have hu : s.dropWhile isSpace =
      ((s.dropWhile isSpace).reverse.dropWhile isSpace).reverse ++
        ((s.dropWhile isSpace).reverse.takeWhile isSpace).reverse := by
    have := congrArg List.reverse hsplit
    rw [List.reverse_append, List.reverse_reverse] at this
    exact this.symm
  generalize ((s.dropWhile isSpace).reverse.dropWhile isSpace).reverse = t at h hu
  have hh : (s.dropWhile isSpace).head? = some a := by
    rw [hu]
    cases t with
    | nil => simp at h
    | cons x r => simpa using h
  have := List.head?_dropWhile_not isSpace s
  rw [hh] at this
  simpa using this

theorem TrimSpace_last (s : List Char) (b : Char) (h : (TrimSpace s).getLast? = some b) :
    isSpace b = false := by
  unfold TrimSpace at h
  rw [List.getLast?_reverse] at h
  have := List.head?_dropWhile_not isSpace (s.dropWhile isSpace).reverse
  rw [h] at this
  simpa using this

/-- Trimming a trimmed text changes nothing. -/
theorem TrimSpace_idem (s : List Char) : TrimSpace (TrimSpace s) = TrimSpace s := by
  have := TrimSpace_pad [] (TrimSpace s) [] (by simp) (by simp) (TrimSpace_head s)
    (TrimSpace_last s)
  simpa using this

/-- C16: a line is split at its first colon only.  For a line `a:b` in which
`a` has no colon, whatever colons `b` has, the key is `a` trimmed and the value
that reaches the cases is the whole of `b`, trimmed, when `b` has no `kB` to
take out.  The key is compared as it is, letter case included, with the
recognized keys: the line sets `Name`, `Umask` or a scalar integer field to
that value when its key is exactly that field's key, and leaves the record as
it is when its key is none of the recognized keys. -/
theorem C16_split_at_first_colon (a b : List Char) (st : ProcStatus)
    (ha : ∀ c ∈ a, c ≠ ':') (hkb : ReplaceKB (TrimSpace b) = TrimSpace b) :
    lineKey (a ++ ':' :: b) = some (TrimSpace a) ∧
    lineValue (a ++ ':' :: b) = TrimSpace b ∧
    (TrimSpace a = ['N', 'a', 'm', 'e'] → (processLine st (a ++ ':' :: b)).Name = TrimSpace b) ∧
    (TrimSpace a = ['U', 'm', 'a', 's', 'k'] →
      (processLine st (a ++ ':' :: b)).Umask = TrimSpace b) ∧
    (∀ K : ScalarKey, TrimSpace a = K.name →
      K.get (processLine st (a ++ ':' :: b)) = (Atoi (TrimSpace b)).1) ∧
    ((∀ k ∈ recognizedKeys, TrimSpace a ≠ k) → processLine st (a ++ ':' :: b) = st) := by
  have hkey : lineKey (a ++ ':' :: b) = some (TrimSpace a) := by
    unfold lineKey
    rw [SplitN2_append_colon a b ha]
    rfl
  have hval : lineValue (a ++ ':' :: b) = TrimSpace b := by
    unfold lineValue lineText
    rw [SplitN2_append_colon a b ha]
    simp only
    rw [hkb, TrimSpace_idem]
  refine ⟨hkey, hval, ?_, ?_, ?_, ?_⟩
  · intro h
    rw [processLine_Name, hkey, h, if_pos rfl, hval]
  · intro h
    rw [processLine_Umask, hkey, h, if_pos rfl, hval]
  · intro K h
    rw [processLine_scalar, hkey, h, if_pos rfl, hval]
  · intro h
    apply processLine_of_unrecognized
    intro k hk
    rw [hkey]
    intro he
    exact h k hk (Option.some.inj he)

/-- Instances of `C16_split_at_first_colon`: the line `Name:\ta:b` gives the
name `a:b`; the lines `name:\tx` and `NAME:\tx` leave the record as it is;
the line `Pid:\t1:2` has the value `1:2`, which is no integer, and leaves `Pid`
at 0. -/
theorem C16_split_at_first_colon_witness :
    ((∀ c ∈ "Name".toList, c ≠ ':') ∧
      ReplaceKB (TrimSpace "\ta:b".toList) = TrimSpace "\ta:b".toList ∧
      TrimSpace "\ta:b".toList = "a:b".toList ∧
      (lineKey ("Name".toList ++ ':' :: "\ta:b".toList) = some (TrimSpace "Name".toList) ∧
        lineValue ("Name".toList ++ ':' :: "\ta:b".toList) = TrimSpace "\ta:b".toList ∧
        (TrimSpace "Name".toList = ['N', 'a', 'm', 'e'] →
          (processLine {} ("Name".toList ++ ':' :: "\ta:b".toList)).Name =
            TrimSpace "\ta:b".toList) ∧
        (TrimSpace "Name".toList = ['U', 'm', 'a', 's', 'k'] →
          (processLine {} ("Name".toList ++ ':' :: "\ta:b".toList)).Umask =
            TrimSpace "\ta:b".toList) ∧
        (∀ K : ScalarKey, TrimSpace "Name".toList = K.name →
          K.get (processLine {} ("Name".toList ++ ':' :: "\ta:b".toList)) =
            (Atoi (TrimSpace "\ta:b".toList)).1) ∧
        ((∀ k ∈ recognizedKeys, TrimSpace "Name".toList ≠ k) →
          processLine {} ("Name".toList ++ ':' :: "\ta:b".toList) = {}))) ∧
    ParseProcStatus "Name:\ta:b".toList = (some { Name := "a:b".toList }, none) ∧
    ParseProcStatus "name:\tx".toList = (some {}, none) ∧
    ParseProcStatus "NAME:\tx".toList = (some {}, none) ∧
    ParseProcStatus "Pid:\t1:2".toList = (some {}, none) :=
  ⟨⟨by decide, by decide, by decide,
    C16_split_at_first_colon "Name".toList "\ta:b".toList {} (by decide) (by decide)⟩,
   by decide, by decide, by decide, by decide⟩


/-! ## C17: a key on several lines -/

/-- A field that every line with the key `key` sets to `f` of the line is,
after the loop, `f` of the last line with that key. -/
theorem foldl_processLine_last {α : Type} (get : ProcStatus → α) (key : List Char)
    (f : List Char → α)
    (h : ∀ st l, get (processLine st l) = if lineKey l = some key then f l else get st)
    (ls : List (List Char)) (st : ProcStatus) :
    get (ls.foldl processLine st) = ((lastWithKey key ls).map f).getD (get st) := by
  rw [foldl_processLine_field get key (fun l _ => f l) h ls st]
  exact foldl_const_update f _ _

theorem lastStateLine_append_singleton (ls : List (List Char)) (l : List Char) :
    lastStateLine (ls ++ [l]) =
      if lineKey l = some ['S', 't', 'a', 't', 'e'] ∧ (betweenParens (lineValue l)).isSome
      then some l else lastStateLine ls := by
  unfold lastStateLine
  rw [List.filter_append]
  by_cases h : lineKey l = some ['S', 't', 'a', 't', 'e'] ∧ (betweenParens (lineValue l)).isSome
  · simp [List.filter, h]
  · simp only [List.filter, h, decide_False, List.append_nil, if_false]

/-- The field `State` after the loop: the parenthesized part of the last line
with the key `State` that has one. -/
theorem foldl_processLine_State (ls : List (List Char)) (st : ProcStatus) :
    (ls.foldl processLine st).State =
      ((lastStateLine ls).bind fun l => betweenParens (lineValue l)).getD st.State := by
  induction ls using List.reverseRecOn with
  | nil => rfl
  | append_singleton ls l ih =>
    rw [List.foldl_append, lastStateLine_append_singleton]
    simp only [List.foldl_cons, List.foldl_nil, processLine_State,
      FindStringSubmatch_eq_betweenParens]
    by_cases hk : lineKey l = some ['S', 't', 'a', 't', 'e']
    · cases hb : betweenParens (lineValue l) with
      | none => simp [hk, ih]
      | some m => simp [hk, hb]
    · simp [hk, ih]

/-- C17: in the record `ParseProcStatus` returns, the last line with the key
decides the fields `Name` and `Umask` (its value), the scalar integer fields
(what `strconv.Atoi` returns for its value, so that a later line that is no
integer resets the field) and the list fields `Uid`, `Gid`, `Groups` (the
integers of its value, so that a later line without any resets the list to
empty).  The field `State` is the parenthesized part of the last line with the
key `State` that has one: a later `State` line without parenthesized part
changes nothing. -/
theorem C17_last_line_decides (c : List Char) (st : ProcStatus)
    (h : ParseProcStatus c = (some st, none)) :
    (∀ l, lastWithKey ['N', 'a', 'm', 'e'] (statusLines c) = some l → st.Name = lineValue l) ∧
    (∀ l, lastWithKey ['U', 'm', 'a', 's', 'k'] (statusLines c) = some l →
      st.Umask = lineValue l) ∧
    (∀ (K : ScalarKey) (l : List Char), lastWithKey K.name (statusLines c) = some l →
      K.get st = (Atoi (lineValue l)).1) ∧
    (∀ l, lastWithKey ['U', 'i', 'd'] (statusLines c) = some l →
      st.Uid = parseToIntArray (lineValue l)) ∧
    (∀ l, lastWithKey ['G', 'i', 'd'] (statusLines c) = some l →
      st.Gid = parseToIntArray (lineValue l)) ∧
    (∀ l, lastWithKey ['G', 'r', 'o', 'u', 'p', 's'] (statusLines c) = some l →
      st.Groups = parseToIntArray (lineValue l)) ∧
    st.State =
      ((lastStateLine (statusLines c)).bind fun l => betweenParens (lineValue l)).getD [] := by
  obtain ⟨_, hst⟩ := (ParseProcStatus_eq_some_iff c st).mp h
  subst hst
  refine ⟨?_, ?_, ?_, ?_, ?_, ?_, ?_⟩
  · intro l hl
    rw [foldl_processLine_last ProcStatus.Name _ lineValue processLine_Name, hl]
    rfl
  · intro l hl
    rw [foldl_processLine_last ProcStatus.Umask _ lineValue processLine_Umask, hl]
    rfl
  · intro K l hl
    rw [foldl_processLine_last K.get _ (fun l => (Atoi (lineValue l)).1)
      (processLine_scalar K), hl]
    rfl
  · intro l hl
    rw [foldl_processLine_last ProcStatus.Uid _ (fun l => parseToIntArray (lineValue l))
      processLine_Uid, hl]
    rfl
  · intro l hl
    rw [foldl_processLine_last ProcStatus.Gid _ (fun l => parseToIntArray (lineValue l))
      processLine_Gid, hl]
    rfl
  · intro l hl
    rw [foldl_processLine_last ProcStatus.Groups _ (fun l => parseToIntArray (lineValue l))
      processLine_Groups, hl]
    rfl
  · rw [foldl_processLine_State]

/-- Instance of `C17_last_line_decides`: in the content
`Name:\ta\nName:\tb\nState:\tS (sleeping)\nState:\tX\nPid:\t5\nPid:\tabc\nUid:\t1\nUid:\t`
the second `Name` line gives the name `b`, the line `Pid:\tabc` resets `Pid`
to 0, the line `Uid:\t` resets `Uid` to the empty list, and the line
`State:\tX` leaves the state `sleeping` of the line before it. -/
theorem C17_last_line_decides_witness :
    ParseProcStatus
        "Name:\ta\nName:\tb\nState:\tS (sleeping)\nState:\tX\nPid:\t5\nPid:\tabc\nUid:\t1\nUid:\t".toList =
      (some { Name := "b".toList, State := "sleeping".toList, Pid := 0, Uid := [] }, none) ∧
    ParseProcStatus "State:\tS (sleeping)\nPid:\t5\nUid:\t1".toList =
      (some { State := "sleeping".toList, Pid := 5, Uid := [1] }, none) ∧
    ScalarKey.Pid.get { Name := "b".toList, State := "sleeping".toList, Pid := 0, Uid := [] } =
      (Atoi (lineValue "Pid:\tabc".toList)).1 ∧
    ({ Name := "b".toList, State := "sleeping".toList, Pid := 0, Uid := [] } :
        ProcStatus).State =
      ((lastStateLine (statusLines
        "Name:\ta\nName:\tb\nState:\tS (sleeping)\nState:\tX\nPid:\t5\nPid:\tabc\nUid:\t1\nUid:\t".toList)).bind
          fun l => betweenParens (lineValue l)).getD [] ∧
    lastStateLine (statusLines
        "Name:\ta\nName:\tb\nState:\tS (sleeping)\nState:\tX\nPid:\t5\nPid:\tabc\nUid:\t1\nUid:\t".toList) =
      some "State:\tS (sleeping)".toList :=
  ⟨by decide, by decide,
   (C17_last_line_decides
      "Name:\ta\nName:\tb\nState:\tS (sleeping)\nState:\tX\nPid:\t5\nPid:\tabc\nUid:\t1\nUid:\t".toList
      { Name := "b".toList, State := "sleeping".toList, Pid := 0, Uid := [] }
      (by decide)).2.2.1 .Pid "Pid:\tabc".toList (by decide),
   (C17_last_line_decides
      "Name:\ta\nName:\tb\nState:\tS (sleeping)\nState:\tX\nPid:\t5\nPid:\tabc\nUid:\t1\nUid:\t".toList
      { Name := "b".toList, State := "sleeping".toList, Pid := 0, Uid := [] }
      (by decide)).2.2.2.2.2.2,
   by decide⟩

/-! ## C18: what `GetMilliCPUUsage` reads of the stat record -/

/-- C18: two stat records of 22 tokens or more that agree on the tokens 13 and
14 give the same runtime, whatever their tokens 21 and whatever the two
uptimes, read without error; when they agree on the token 21 as well, they
give the same result of `GetMilliCPUUsage`, usage, runtime and error, for the
same result of `getUptime` and the same tick rate. -/
theorem C18_three_tokens_decide (s1 s2 : List Char) (up : F64 × Option Error) (u1 u2 : F64)
    (clk : Int) (h1 : 22 ≤ (tokens s1).length) (h2 : 22 ≤ (tokens s2).length)
    (h13 : (tokens s1).getD 13 [] = (tokens s2).getD 13 [])
    (h14 : (tokens s1).getD 14 [] = (tokens s2).getD 14 []) :
    ((tokens s1).getD 21 [] = (tokens s2).getD 21 [] →
      GetMilliCPUUsage s1 up clk = GetMilliCPUUsage s2 up clk) ∧
    (GetMilliCPUUsage s1 (u1, none) clk).2.1 = (GetMilliCPUUsage s2 (u2, none) clk).2.1 := by
  constructor
  · intro h21
    rw [GetMilliCPUUsage_eq, GetMilliCPUUsage_eq]
    exact GetMilliCPUUsageOfFields_congr _ _ up clk h1 h2 (by rw [h13]) (by rw [h14])
      (by rw [h21])
  · rw [GetMilliCPUUsage_eq, GetMilliCPUUsage_eq, GetMilliCPUUsageOfFields_of_long _ _ _ h1,
      GetMilliCPUUsageOfFields_of_long _ _ _ h2, h13, h14]

set_option maxRecDepth 100000 in
/-- Instance of `C18_three_tokens_decide`: two stat records that differ in
the process id, the name, the state and the token 21, with tokens 13 and 14
equal to 100 and 50, have the runtime 1.5 for the uptimes 10.0 and 20.0. -/
theorem C18_three_tokens_decide_witness :
    GetMilliCPUUsage
        "1 (a) S 0 1 1 0 -1 4194304 100 0 0 0 100 50 0 0 20 0 1 0 200 1000 100".toList
        (F64.ofInt 10, none) 100 =
      (187, F64.fin false 6755399441055744 (-52), none) ∧
    (GetMilliCPUUsage
        "7 (bc) R 2 7 7 1 -1 0 9 9 9 9 100 50 3 3 10 5 4 0 300 77 88 99".toList
        (F64.ofInt 20, none) 100).2.1 = F64.fin false 6755399441055744 (-52) ∧
    (((tokens "1 (a) S 0 1 1 0 -1 4194304 100 0 0 0 100 50 0 0 20 0 1 0 200 1000 100".toList).getD
          21 [] =
        (tokens "7 (bc) R 2 7 7 1 -1 0 9 9 9 9 100 50 3 3 10 5 4 0 300 77 88 99".toList).getD
          21 [] →
      GetMilliCPUUsage
          "1 (a) S 0 1 1 0 -1 4194304 100 0 0 0 100 50 0 0 20 0 1 0 200 1000 100".toList
          (F64.ofInt 10, none) 100 =
        GetMilliCPUUsage
          "7 (bc) R 2 7 7 1 -1 0 9 9 9 9 100 50 3 3 10 5 4 0 300 77 88 99".toList
          (F64.ofInt 10, none) 100) ∧
      (GetMilliCPUUsage
          "1 (a) S 0 1 1 0 -1 4194304 100 0 0 0 100 50 0 0 20 0 1 0 200 1000 100".toList
          (F64.ofInt 10, none) 100).2.1 =
        (GetMilliCPUUsage
          "7 (bc) R 2 7 7 1 -1 0 9 9 9 9 100 50 3 3 10 5 4 0 300 77 88 99".toList
          (F64.ofInt 20, none) 100).2.1) :=
  ⟨by decide, by decide,
   C18_three_tokens_decide
     "1 (a) S 0 1 1 0 -1 4194304 100 0 0 0 100 50 0 0 20 0 1 0 200 1000 100".toList
     "7 (bc) R 2 7 7 1 -1 0 9 9 9 9 100 50 3 3 10 5 4 0 300 77 88 99".toList
     (F64.ofInt 10, none) (F64.ofInt 10) (F64.ofInt 20) 100
     (by decide) (by decide) (by decide) (by decide)⟩


/-! ## C4: `State` -/

/-- C4 (counterexample): in the content made of the line `State:\tX` and of a
line of 65536 letters `x`, the value `X` of the `State` line has no pair of
parentheses, and `ParseProcStatus` returns the scanner's error and no
record. -/
theorem C4_counterexample :
    lineKey "State:\tX".toList = some ['S', 't', 'a', 't', 'e'] ∧
    betweenParens (TrimSpace (lineText "State:\tX".toList)) = none ∧
    ParseProcStatus ("State:\tX\n".toList ++ List.replicate 65536 'x') =
      (none, some .tooLong) := by
  have hx : ∀ c ∈ List.replicate 65536 'x', c ≠ '\n' := by
    intro c hc
    rw [List.eq_of_mem_replicate hc]
    decide
  have hne : List.replicate 65536 'x' ≠ [] := by
    intro h
    have := congrArg List.length h
    rw [List.length_replicate] at this
    exact absurd this (by decide)
  refine ⟨by decide, by decide, ?_⟩
  apply ParseProcStatus_of_error
  have h1 : rawLines ("State:\tX\n".toList ++ List.replicate 65536 'x') =
      ["State:\tX".toList] ++ List.replicate 65536 'x' :: [] := by
    rw [rawLines_append _ _ (Or.inr (by decide)), rawLines_of_no_newline _ hx hne]
    rfl
  rw [h1]
  apply scanLoop_insert_long
  rw [byteLen_replicate]
  decide

/-- C4 (amended): when every line of a status content is shorter than 65536
bytes and exactly one line has the key `State`, `ParseProcStatus` returns a
record without error, and its field `State` is the substring strictly between
the first `(` of that line's value and the first `)` that follows it, or the
empty string when the value has no such pair of parentheses.  The value is the
text after the first colon, trimmed; the statement is for a value that holds
no `kB`. -/
theorem C4_State_between_parens (c : List Char) (l : List Char)
    (hfit : ∀ r ∈ rawLines c, byteLen r < MaxScanTokenSize)
    (hone : (statusLines c).filter (fun x => lineKey x = some ['S', 't', 'a', 't', 'e']) = [l])
    (hkb : ReplaceKB (TrimSpace (lineText l)) = TrimSpace (lineText l)) :
    ∃ st, ParseProcStatus c = (some st, none) ∧
      st.State = (betweenParens (TrimSpace (lineText l))).getD [] := by
  refine ⟨(statusLines c).foldl processLine {}, ?_, ?_⟩
  · exact (ParseProcStatus_eq_some_iff c _).mpr ⟨hfit, rfl⟩
  · rw [foldl_processLine_State_single _ l hone, FindStringSubmatch_eq_betweenParens]
    unfold lineValue
    rw [hkb, TrimSpace_idem]

/-- Instances of `C4_State_between_parens`: `State:\tS (sleeping)` gives
`sleeping`, and `State:\tX`, without parentheses, gives the empty string and no
error. -/
theorem C4_State_between_parens_witness :
    (ParseProcStatus "State:\tS (sleeping)".toList =
        (some { State := "sleeping".toList }, none) ∧
      TrimSpace (lineText "State:\tS (sleeping)".toList) = "S (sleeping)".toList ∧
      betweenParens "S (sleeping)".toList = some "sleeping".toList ∧
      ∃ st, ParseProcStatus "State:\tS (sleeping)".toList = (some st, none) ∧
        st.State =
          (betweenParens (TrimSpace (lineText "State:\tS (sleeping)".toList))).getD []) ∧
    (ParseProcStatus "State:\tX".toList = (some { State := [] }, none) ∧
      ∃ st, ParseProcStatus "State:\tX".toList = (some st, none) ∧
        st.State = (betweenParens (TrimSpace (lineText "State:\tX".toList))).getD []) ∧
    (ParseProcStatus "Name:\tsh\nState:\tR (running)\nPid:\t7\n".toList =
        (some { Name := "sh".toList, State := "running".toList, Pid := 7 }, none) ∧
      ∃ st, ParseProcStatus "Name:\tsh\nState:\tR (running)\nPid:\t7\n".toList = (some st, none) ∧
        st.State =
          (betweenParens (TrimSpace (lineText "State:\tR (running)".toList))).getD []) :=
  ⟨⟨by decide, by decide, by decide,
    C4_State_between_parens "State:\tS (sleeping)".toList "State:\tS (sleeping)".toList
      (by decide) (by decide) (by decide)⟩,
   ⟨by decide,
    C4_State_between_parens "State:\tX".toList "State:\tX".toList
      (by decide) (by decide) (by decide)⟩,
   ⟨by decide,
    C4_State_between_parens "Name:\tsh\nState:\tR (running)\nPid:\t7\n".toList
      "State:\tR (running)".toList (by decide) (by decide) (by decide)⟩⟩


end ProcFormat
